import Mathlib

/-!
Verification of the data-models-validator core (greedy CSV scanner plus
schema-driven row validator) against its natural-language specification.
The Go sources are embedded shallowly: Go strings become lists of bytes
(`List Nat`), the mutable scanner state becomes an explicit record, and
the bufio.Scanner driver loop is modelled as a recursive function over
the remaining bytes together with the end-of-input flag.
-/

namespace DMV

/-- Go strings are byte sequences; we model them as lists of byte values. -/
abbrev Bytes := List Nat

/-- ASCII view of a Lean string as Go bytes (all inputs used here are ASCII). -/
def bytes (s : String) : Bytes := s.toList.map Char.toNat

/-- The byte constants used by the scanner. -/
def QU : Nat := 34
def NL : Nat := 10
def CR : Nat := 13
def SEP : Nat := 44
def HASH : Nat := 35

/-- csv.go: the mutable scanner state of CSVReader (separator, comment
marker, end-of-record flag, 1-based line number, 1-based column). -/
structure CSVState where
  sep : Nat
  comment : Nat
  eor : Bool
  lineno : Nat
  column : Nat
deriving Repr, DecidableEq

/-- NewCSVReader: eor = true, lineno = 1, column = 0, comment unset. -/
def initCSV (sep : Nat) : CSVState := ⟨sep, 0, true, 1, 0⟩

/-- The lexical errors the scanner can raise (csv.go scanField) together
with parseCSVLine's “too many columns” error. -/
inductive LexErr where
  | unescapedQuote (line column : Nat)
  | unterminatedField (line column : Nat)
  | unquotedField (line column : Nat)
  | tooManyColumns (expected : Nat)
deriving Repr, DecidableEq

/-- Outcome of the quoted-field loop in csv.go scanField (lines 109-151):
`i` is the index (in the whole window) at which the field terminator was
found, `q` the count of escaped quote pairs, `ln` the line counter after
the loop's increments, `c` the byte the loop examined last. -/
inductive QEnd where
  | sepEnd (i q ln : Nat)
  | nlEnd (i q ln : Nat)
  | crnlEnd (i q ln : Nat)
  | badQuote (ln col : Nat)
  | outOfData (c q ln : Nat)
deriving Repr, DecidableEq

/-- csv.go lines 109-151: the character loop inside the quoted branch.
Arguments mirror the loop state: remaining bytes, current index `i`,
previous and before-previous characters `pc`/`ppc`, escaped-quote count
`q`, line counter `ln`, and the previously examined byte `c0`. -/
def qloop (sep col : Nat) : Bytes → Nat → Nat → Nat → Nat → Nat → Nat → QEnd
  | [], _i, _pc, _ppc, q, ln, c0 => .outOfData c0 q ln
  | c :: rest, i, pc, ppc, q, ln0, _c0 =>
    let ln := if c = NL then ln0 + 1 else ln0
    if c = QU ∧ pc = QU then
      qloop sep col rest (i + 1) 0 ppc (q + 1) ln c
    else if pc = QU ∧ c = sep then .sepEnd i q ln
    else if pc = QU ∧ c = NL then .nlEnd i q ln
    else if c = NL ∧ pc = CR ∧ ppc = QU then .crnlEnd i q ln
    else if pc = QU ∧ c ≠ CR then .badQuote ln col
    else qloop sep col rest (i + 1) c pc q ln c

/-- Outcome of the unquoted-field loop in csv.go scanField (lines 166-184). -/
inductive UEnd where
  | sepEnd (i : Nat)
  | crEnd (i : Nat)
  | nlEnd (i : Nat)
  | errU
  | finished
deriving Repr, DecidableEq

/-- csv.go lines 166-184: the loop of the unquoted branch.  Every branch of
the Go loop body returns, so the loop only ever examines the first byte;
`orig` is the whole window (for the carriage-return lookback) and `i` the
index of the byte under examination. -/
def uloop (sep : Nat) (orig : Bytes) : Bytes → Nat → UEnd
  | [], _ => .finished
  | c :: _rest, i =>
    if c = sep then .sepEnd i
    else if c = NL then
      if 0 < i ∧ orig.getD (i - 1) 0 = CR then .crEnd i else .nlEnd i
    else .errU

/-- Index of the first newline, as searched by the comment branch
(csv.go lines 86-92). -/
def findNl : Bytes → Option Nat
  | [] => none
  | c :: rest => if c = NL then some 0 else (findNl rest).map (· + 1)

/-- The write sequence of unescapeQuotes' in-place rewrite loop
(csv.go lines 199-205): every byte is copied, and after copying a quote
(always, in strict mode; otherwise only before a second quote) the read
index skips the following byte. -/
def unescapeWrites (strict : Bool) : Bytes → Bytes
  | [] => []
  | [b] => [b]
  | b :: x :: rest =>
    if b = QU ∧ (strict ∨ x = QU) then b :: unescapeWrites strict rest
    else b :: unescapeWrites strict (x :: rest)

/-- csv.go unescapeQuotes (lines 195-207): rewrite in place and truncate
to `length - count`.  The bytes past the write frontier keep their
original values, as in the Go in-place loop. -/
def unescapeQuotes (b : Bytes) (count : Nat) (strict : Bool) : Bytes :=
  if count = 0 then b
  else
    let w := unescapeWrites strict b
    (w ++ b.drop w.length).take (b.length - count)

/-- Result of one scanField call: bytes consumed, the token produced (if
any), the lexical error (if any), and the updated scanner state. -/
structure SFRes where
  advance : Nat
  token : Option Bytes
  err : Option LexErr
  st : CSVState
deriving Repr, DecidableEq

/-- csv.go lines 86-99: the comment branch of scanField — skip up to and
including the first newline, or the whole window at end of input. -/
def commentScan (s : CSVState) (data : Bytes) (atEOF : Bool) : SFRes :=
  match findNl data with
  | some i => ⟨i + 1, none, none, { s with lineno := s.lineno + 1 }⟩
  | none => if atEOF then ⟨data.length, none, none, s⟩ else ⟨0, none, none, s⟩

/-- csv.go lines 101-161: the quoted branch of scanField, assembling the
token from the quoted-field loop's outcome. -/
def quotedScan (s : CSVState) (data : Bytes) (atEOF : Bool) : SFRes :=
  match qloop s.sep s.column (data.drop 1) 1 0 0 0 s.lineno 0 with
  | .sepEnd i q ln =>
    ⟨i + 1, some (unescapeQuotes ((data.take (i - 1)).drop 1) q true), none,
      { s with eor := false, lineno := ln }⟩
  | .nlEnd i q ln =>
    ⟨i + 1, some (unescapeQuotes ((data.take (i - 1)).drop 1) q true), none,
      { s with eor := true, lineno := ln }⟩
  | .crnlEnd i q ln =>
    ⟨i + 1, some (unescapeQuotes ((data.take (i - 2)).drop 1) q true), none,
      { s with eor := true, lineno := ln }⟩
  | .badQuote ln col => ⟨0, none, some (.unescapedQuote ln col), { s with lineno := ln }⟩
  | .outOfData c q ln =>
    if atEOF then
      if c = QU then
        ⟨data.length, some (unescapeQuotes ((data.take (data.length - 1)).drop 1) q true),
          none, { s with eor := true, lineno := ln }⟩
      else ⟨0, none, some (.unterminatedField s.lineno s.column), { s with lineno := ln }⟩
    else ⟨0, none, none, { s with lineno := ln }⟩

/-- csv.go lines 163-189: the unquoted branch of scanField. -/
def unquotedScan (s : CSVState) (data : Bytes) (atEOF : Bool) : SFRes :=
  match uloop s.sep data data 0 with
  | .sepEnd i => ⟨i + 1, some (data.take i), none, { s with eor := false }⟩
  | .crEnd i =>
    ⟨i + 1, some (data.take (i - 1)), none, { s with eor := true, lineno := s.lineno + 1 }⟩
  | .nlEnd i =>
    ⟨i + 1, some (data.take i), none, { s with eor := true, lineno := s.lineno + 1 }⟩
  | .errU => ⟨0, none, some (.unquotedField s.lineno s.column), s⟩
  | .finished =>
    if atEOF then ⟨data.length, some data, none, { s with eor := true }⟩
    else ⟨0, none, none, s⟩

/-- The column update at the top of scanField (csv.go lines 70-78): the
column counter is reset exactly once per record, then incremented. -/
def bumpColumn (s : CSVState) : CSVState :=
  { s with column := if s.eor then 1 else s.column + 1 }

/-- csv.go scanField (lines 69-193): one attempt at lexing a field from
the window `data`, with `atEOF` true when the underlying reader is known
to be exhausted.  The comment marker is a field the column update leaves
untouched, so testing it on `s0` matches the source. -/
def scanField (s0 : CSVState) (data : Bytes) (atEOF : Bool) : SFRes :=
  if s0.eor ∧ atEOF ∧ data = [] then ⟨0, none, none, s0⟩ else
  match data with
  | [] => ⟨0, none, none, bumpColumn s0⟩
  | b :: _rest =>
    if s0.eor ∧ s0.comment ≠ 0 ∧ b = s0.comment then commentScan (bumpColumn s0) data atEOF
    else if b = QU then quotedScan (bumpColumn s0) data atEOF
    else unquotedScan (bumpColumn s0) data atEOF

/-- scanField with empty data produces no advance and no token. -/
theorem scanField_nil (s : CSVState) (atEOF : Bool) :
    (scanField s [] atEOF).advance = 0 ∧ (scanField s [] atEOF).token = none := by
  unfold scanField
  split <;> simp

theorem quotedScan_tok_pos (s : CSVState) (b : Nat) (rest : Bytes) (atEOF : Bool)
    (h : (quotedScan s (b :: rest) atEOF).token.isSome) :
    1 ≤ (quotedScan s (b :: rest) atEOF).advance := by
  unfold quotedScan
  repeat' split
  all_goals simp_all [quotedScan]

theorem unquotedScan_tok_pos (s : CSVState) (b : Nat) (rest : Bytes) (atEOF : Bool)
    (h : (unquotedScan s (b :: rest) atEOF).token.isSome) :
    1 ≤ (unquotedScan s (b :: rest) atEOF).advance := by
  unfold unquotedScan
  repeat' split
  all_goals simp_all [unquotedScan]

theorem commentScan_tok_none (s : CSVState) (data : Bytes) (atEOF : Bool) :
    (commentScan s data atEOF).token = none := by
  unfold commentScan
  repeat' split
  all_goals simp

/-- Whenever scanField yields a token, it consumed at least one byte. -/
theorem scanField_tok_pos (s : CSVState) (data : Bytes) (atEOF : Bool)
    (h : (scanField s data atEOF).token.isSome) : 1 ≤ (scanField s data atEOF).advance := by
  rcases data with _ | ⟨b, rest⟩
  · simp [(scanField_nil s atEOF).2] at h
  · revert h
    unfold scanField
    repeat' split
    all_goals intro h
    all_goals first
      | simp at h
      | (rw [commentScan_tok_none] at h; simp at h)
      | exact quotedScan_tok_pos _ _ _ _ h
      | exact unquotedScan_tok_pos _ _ _ _ h

/-- csv.go ScanField (lines 54-67): repeat scanField while it makes
progress without producing a token or an error (this skips comment
lines), accumulating the advance. -/
def scanFieldLoop (s : CSVState) (data : Bytes) (atEOF : Bool) (acc : Nat) : SFRes :=
  let r := scanField s data atEOF
  if r.err.isSome ∨ r.advance = 0 ∨ r.token.isSome then { r with advance := acc + r.advance }
  else scanFieldLoop r.st (data.drop r.advance) atEOF (acc + r.advance)
termination_by data.length
decreasing_by
  rename_i h
  simp only [not_or] at h
  have hadv : (scanField s data atEOF).advance ≠ 0 := h.2.1
  have hlen : data ≠ [] := by
    intro hnil
    subst hnil
    exact hadv (scanField_nil s atEOF).1
  have hpos : 0 < data.length := List.length_pos.mpr hlen
  simp only [List.length_drop]
  omega

/-- Outcome of one bufio.Scanner.Scan call: a token together with the
remaining buffered bytes and the end-of-input flag, clean exhaustion, or
a split error (Scan returns false and Err surfaces the error). -/
inductive ScanRes where
  | tok (t : Bytes) (s : CSVState) (data : Bytes) (eofSeen : Bool)
  | done (s : CSVState) (data : Bytes)
  | errS (e : LexErr) (s : CSVState) (data : Bytes)
deriving Repr, DecidableEq

/-- bufio.Scanner.Scan specialised to a reader that yields its whole
buffer and then io.EOF: call the split function on the buffered bytes
with atEOF = eofSeen; an error stops the scan with the error, a token is
returned after advancing, and otherwise the read records EOF (first
time) or the scan finishes. -/
def scanGo (s : CSVState) (data : Bytes) (eofSeen : Bool) : ScanRes :=
  if data = [] ∧ eofSeen = false then scanGo s data true
  else
    let r := scanFieldLoop s data eofSeen 0
    match r.err with
    | some e => .errS e r.st data
    | none =>
      match r.token with
      | some t => .tok t r.st (data.drop r.advance) eofSeen
      | none =>
        if eofSeen then .done r.st (data.drop r.advance)
        else scanGo r.st (data.drop r.advance) true
termination_by 2 * data.length + (if eofSeen then 0 else 1)
decreasing_by
  all_goals simp_all [List.length_drop]
  all_goals omega

/-- The split-function wrapper consumes at least one byte whenever it
produces a token. -/
theorem scanFieldLoop_tok_pos (s : CSVState) (data : Bytes) (atEOF : Bool) (acc : Nat)
    (h : (scanFieldLoop s data atEOF acc).token.isSome) :
    1 ≤ (scanFieldLoop s data atEOF acc).advance := by
  induction s, data, atEOF, acc using scanFieldLoop.induct with
  | case1 s data atEOF acc r hcond =>
    have hc : (scanField s data atEOF).err.isSome = true ∨ (scanField s data atEOF).advance = 0 ∨
        (scanField s data atEOF).token.isSome = true := hcond
    rw [scanFieldLoop, if_pos hc] at h ⊢
    simp only at h ⊢
    have := scanField_tok_pos s data atEOF h
    omega
  | case2 s data atEOF acc r hcond ih =>
    have hc : ¬((scanField s data atEOF).err.isSome = true ∨ (scanField s data atEOF).advance = 0 ∨
        (scanField s data atEOF).token.isSome = true) := hcond
    rw [scanFieldLoop, if_neg hc] at h ⊢
    exact ih h

/-- The wrapper never produces a token from an empty window. -/
theorem scanFieldLoop_nil_tok (s : CSVState) (atEOF : Bool) (acc : Nat) :
    (scanFieldLoop s [] atEOF acc).token = none := by
  rw [scanFieldLoop]
  have h0 := (scanField_nil s atEOF).1
  have h1 := (scanField_nil s atEOF).2
  simp [h0, h1]

/-- Whenever Scan produces a token, the remaining buffer is strictly
shorter. -/
theorem scanGo_tok_lt (s : CSVState) (data : Bytes) (eofSeen : Bool)
    (t : Bytes) (s2 : CSVState) (data2 : Bytes) (eof2 : Bool)
    (h : scanGo s data eofSeen = .tok t s2 data2 eof2) : data2.length < data.length := by
  induction s, data, eofSeen using scanGo.induct with
  | case1 s data eofSeen hcond ih =>
    obtain ⟨h1, h2⟩ := hcond
    subst h1; subst h2
    rw [scanGo, if_pos ⟨rfl, rfl⟩] at h
    exact ih h
  | case2 s data eofSeen hnil r e heq =>
    have he : (scanFieldLoop s data eofSeen 0).err = some e := heq
    rw [scanGo, if_neg hnil] at h
    simp only [he] at h
    simp at h
  | case3 s data eofSeen hnil r herr tok heqt =>
    have he : (scanFieldLoop s data eofSeen 0).err = none := herr
    have ht : (scanFieldLoop s data eofSeen 0).token = some tok := heqt
    rw [scanGo, if_neg hnil] at h
    simp only [he, ht] at h
    rw [ScanRes.tok.injEq] at h
    obtain ⟨-, -, h3, -⟩ := h
    subst h3
    have hpos : 1 ≤ (scanFieldLoop s data eofSeen 0).advance := by
      apply scanFieldLoop_tok_pos
      simp [ht]
    have hne : data ≠ [] := by
      intro hnil2
      subst hnil2
      rw [scanFieldLoop_nil_tok] at ht
      exact Option.noConfusion ht
    have hlp : 0 < data.length := List.length_pos.mpr hne
    simp only [List.length_drop]
    omega
  | case4 s data hnil r herr htok =>
    have he : (scanFieldLoop s data true 0).err = none := herr
    have ht : (scanFieldLoop s data true 0).token = none := htok
    rw [scanGo, if_neg hnil] at h
    simp only [he, ht] at h
    simp at h
  | case5 s data eofSeen hnil r herr htok heof ih =>
    have he : (scanFieldLoop s data eofSeen 0).err = none := herr
    have ht : (scanFieldLoop s data eofSeen 0).token = none := htok
    have hb : eofSeen = false := by revert heof; cases eofSeen <;> simp
    subst hb
    rw [scanGo, if_neg hnil] at h
    simp only [he, ht, Bool.false_eq_true, if_false] at h
    have hlt := ih h
    simp only [List.length_drop] at hlt
    omega

/-- csv.go parseCSVLine (lines 280-300), loop part: scan fields into the
fixed-width record `t` (index `i`), stopping at end of record, at an
error, or when a field beyond the record's width appears. -/
def parseLoop (m : Nat) (s : CSVState) (data : Bytes) (eofSeen : Bool)
    (t : List Bytes) (i : Nat) : Nat × Option LexErr × List Bytes :=
  match h : scanGo s data eofSeen with
  | .done s' _ => (s'.column, none, t)
  | .errS e s' _ => (s'.column, some e, t)
  | .tok tok s' data' eof' =>
    if i = m then (s'.column, some (.tooManyColumns m), t)
    else
      if s'.eor then (s'.column, none, t.set i tok)
      else parseLoop m s' data' eof' (t.set i tok) (i + 1)
termination_by data.length
decreasing_by exact scanGo_tok_lt _ _ _ _ _ _ _ h

/-- csv.go parseCSVLine (lines 280-300): read the buffered line as CSV
into the record `t`, with a fresh comma reader whose comment marker is
'#'.  Returns the reader's column, the error (if any), and the record
as mutated. -/
def parseCSVLine (line : Bytes) (t : List Bytes) : Nat × Option LexErr × List Bytes :=
  parseLoop t.length { initCSV SEP with comment := HASH } line false t 0

/-- errors.go Error: a coded error kind. -/
structure GoErr where
  code : Nat
  description : String
deriving Repr, DecidableEq

def ErrBadEncoding : GoErr := ⟨100, "UTF-8 encoding required"⟩
def ErrBadHeader : GoErr := ⟨201, "Header does not contain the correct set of fields"⟩
def ErrExtraColumns : GoErr := ⟨202, "Extra columns were detected in line"⟩
def ErrBareQuote : GoErr := ⟨203, "Value contains bare double quotes (\")"⟩
def ErrRequiredValue : GoErr := ⟨300, "Value is required"⟩
def ErrTypeMismatch : GoErr := ⟨301, "Value is not the correct type"⟩
def ErrTypeMismatchInt : GoErr := ⟨305, "Value is not an integer (int32)"⟩
def ErrTypeMismatchNum : GoErr := ⟨306, "Value is not a number (float32)"⟩
def ErrTypeMismatchDate : GoErr := ⟨307, "Value is not a date (YYYY-MM-DD)"⟩
def ErrTypeMismatchDateTime : GoErr := ⟨308, "Value is not a datetime (YYYY-MM-DD HH:MM:SS)"⟩
def ErrLengthExceeded : GoErr := ⟨302, "Value exceeds the maximum length"⟩
def ErrPrecisionExceeded : GoErr := ⟨303, "Numeric precision exceeded"⟩
def ErrScaleExceeded : GoErr := ⟨304, "Numeric scale exceeded"⟩

/-- A context value (validators.go Context is map[string]interface{});
the values the code actually stores are ints, strings, string lists and
rune lists. -/
inductive CtxV where
  | int (i : Int)
  | str (b : Bytes)
  | strs (l : List Bytes)
  | badChars (l : List Nat)
deriving Repr, DecidableEq

/-- validators.go Context, as the association list of its entries. -/
abbrev Ctx := List (String × CtxV)

/-- errors.go ValidationError: the error kind, 1-based line, field name
(empty for line-level errors), offending value and extra context. -/
structure VError where
  err : GoErr
  line : Nat
  field : Bytes
  value : Bytes
  context : Ctx
deriving Repr, DecidableEq

/-- csv.go greedyCSVReader.Read (lines 220-266) on one input line (the
outer bufio line scanner has already stripped the newline): parse the
line into the shared fixed-width record; on any parse error synthesize a
single line-level ValidationError with kind ErrBareQuote, the raw line
as value and the reader's column as context.  `lineNo` is r.line after
the increment; the record is returned as mutated by the parse. -/
def greedyRead (lineNo : Nat) (rec : List Bytes) (line : Bytes) :
    List Bytes × Option VError :=
  match parseCSVLine line rec with
  | (col, some _, rec') =>
    (rec', some { err := ErrBareQuote, line := lineNo, field := [], value := line,
                  context := [("column", .int col)] })
  | (_, none, rec') => (rec', none)

/-- unicode/utf8 byte-class check: is `c` a continuation byte. -/
def isCont (c : Nat) : Bool := 0x80 ≤ c ∧ c ≤ 0xBF

/-- unicode/utf8.ValidString over byte sequences: every position starts a
well-formed UTF-8 encoding (no overlong forms, no surrogates, max
U+10FFFF), exactly the acceptance table of the Go package. -/
def utf8Valid : Bytes → Bool
  | [] => true
  | b :: rest =>
    if b < 0x80 then utf8Valid rest
    else if 0xC2 ≤ b ∧ b ≤ 0xDF then
      match rest with
      | c :: r => isCont c && utf8Valid r
      | [] => false
    else if b = 0xE0 then
      match rest with
      | c :: d :: r => (0xA0 ≤ c ∧ c ≤ 0xBF : Bool) && isCont d && utf8Valid r
      | _ => false
    else if (0xE1 ≤ b ∧ b ≤ 0xEC) ∨ b = 0xEE ∨ b = 0xEF then
      match rest with
      | c :: d :: r => isCont c && isCont d && utf8Valid r
      | _ => false
    else if b = 0xED then
      match rest with
      | c :: d :: r => (0x80 ≤ c ∧ c ≤ 0x9F : Bool) && isCont d && utf8Valid r
      | _ => false
    else if b = 0xF0 then
      match rest with
      | c :: d :: e :: r => (0x90 ≤ c ∧ c ≤ 0xBF : Bool) && isCont d && isCont e && utf8Valid r
      | _ => false
    else if 0xF1 ≤ b ∧ b ≤ 0xF3 then
      match rest with
      | c :: d :: e :: r => isCont c && isCont d && isCont e && utf8Valid r
      | _ => false
    else if b = 0xF4 then
      match rest with
      | c :: d :: e :: r => (0x80 ≤ c ∧ c ≤ 0x8F : Bool) && isCont d && isCont e && utf8Valid r
      | _ => false
    else false

/-- One UTF-8 decode attempt (unicode/utf8.DecodeRune over bytes): the
number of bytes consumed and whether the decode succeeded; a failed
decode consumes one byte and yields utf8.RuneError. -/
def utf8Step : Bytes → Nat × Bool
  | [] => (1, false)
  | b :: rest =>
    if b < 0x80 then (1, true)
    else if 0xC2 ≤ b ∧ b ≤ 0xDF then
      match rest with
      | c :: _ => if isCont c then (2, true) else (1, false)
      | [] => (1, false)
    else if b = 0xE0 then
      match rest with
      | c :: d :: _ =>
        if (0xA0 ≤ c ∧ c ≤ 0xBF : Bool) && isCont d then (3, true) else (1, false)
      | _ => (1, false)
    else if (0xE1 ≤ b ∧ b ≤ 0xEC) ∨ b = 0xEE ∨ b = 0xEF then
      match rest with
      | c :: d :: _ => if isCont c && isCont d then (3, true) else (1, false)
      | _ => (1, false)
    else if b = 0xED then
      match rest with
      | c :: d :: _ =>
        if (0x80 ≤ c ∧ c ≤ 0x9F : Bool) && isCont d then (3, true) else (1, false)
      | _ => (1, false)
    else if b = 0xF0 then
      match rest with
      | c :: d :: e :: _ =>
        if (0x90 ≤ c ∧ c ≤ 0xBF : Bool) && isCont d && isCont e then (4, true) else (1, false)
      | _ => (1, false)
    else if 0xF1 ≤ b ∧ b ≤ 0xF3 then
      match rest with
      | c :: d :: e :: _ =>
        if isCont c && isCont d && isCont e then (4, true) else (1, false)
      | _ => (1, false)
    else if b = 0xF4 then
      match rest with
      | c :: d :: e :: _ =>
        if (0x80 ≤ c ∧ c ≤ 0x8F : Bool) && isCont d && isCont e then (4, true) else (1, false)
      | _ => (1, false)
    else (1, false)

theorem utf8Step_pos (l : Bytes) : 1 ≤ (utf8Step l).1 := by
  unfold utf8Step
  repeat' split
  all_goals simp

/-- The bad-rune collection of the Encoding validator (validators.go
lines 76-86): walking the string rune by rune, each undecodable byte
contributes one utf8.RuneError (U+FFFD) and is skipped. -/
def badRunes : Bytes → List Nat
  | [] => []
  | b :: rest =>
    if (utf8Step (b :: rest)).2 then badRunes ((b :: rest).drop (utf8Step (b :: rest)).1)
    else 0xFFFD :: badRunes rest
termination_by l => l.length
decreasing_by
  · have := utf8Step_pos (c :: rest)
    simp only [List.length_drop, List.length_cons]
    omega
  · simp

/-- Decimal digit. -/
def isDigit (c : Nat) : Bool := 48 ≤ c ∧ c ≤ 57

/-- The value of a decimal digit string. -/
def digitsVal (ds : Bytes) : Nat := ds.foldl (fun a d => a * 10 + (d - 48)) 0

/-- The digits-and-range core of strconv.ParseInt after the sign is
stripped: at least one decimal digit, and the signed value must fit the
bit size (out-of-range input is an error, as the validators only test
err != nil). -/
def parseIntCore (neg : Bool) (ds : Bytes) (bitSize : Nat) : Option Int :=
  if ds = [] ∨ ¬ ds.all isDigit then none
  else if -(2 : Int) ^ (bitSize - 1) ≤ (if neg then -(digitsVal ds : Int) else (digitsVal ds : Int))
      ∧ (if neg then -(digitsVal ds : Int) else (digitsVal ds : Int)) ≤ 2 ^ (bitSize - 1) - 1 then
    some (if neg then -(digitsVal ds : Int) else (digitsVal ds : Int))
  else none

/-- strconv.ParseInt(s, 10, bitSize): an optional single leading sign,
then the digit core. -/
def goParseInt (s : Bytes) (bitSize : Nat) : Option Int :=
  match s with
  | 43 :: r => parseIntCore false r bitSize
  | 45 :: r => parseIntCore true r bitSize
  | r => parseIntCore false r bitSize

/-- ASCII lowercase mapping of one byte (strings.ToLower restricted to
the ASCII range; all header and schema names in play are ASCII). -/
def toLowerByte (c : Nat) : Nat := if 65 ≤ c ∧ c ≤ 90 then c + 32 else c

/-- strings.ToLower over a byte string (ASCII range). -/
def toLowerGo (b : Bytes) : Bytes := b.map toLowerByte

/-- Digits before the first non-digit, and the remainder. -/
def takeDigits : Bytes → Bytes × Bytes
  | c :: r =>
    if isDigit c then
      match takeDigits r with
      | (d, rest) => (c :: d, rest)
    else ([], c :: r)
  | [] => ([], [])

/-- The overflow test of strconv.ParseFloat for float32: the exact value
`m · 10^d` rounds to infinity (an ErrRange error) exactly when it
reaches the half-ULP boundary above the largest finite float32,
`(2^25 - 1) · 2^102`. -/
def floatRangeOk (m : Nat) (d : Int) : Bool :=
  if 0 ≤ d then m * 10 ^ d.toNat < (2 ^ 25 - 1) * 2 ^ 102
  else m < (2 ^ 25 - 1) * 2 ^ 102 * 10 ^ (-d).toNat

/-- strconv.ParseFloat(s, 32) success (pre-Go-1.13 grammar: optional
sign, decimal mantissa with optional dot, optional e-exponent, and the
case-insensitive specials inf/infinity with optional sign and bare nan);
out-of-range magnitudes are errors.  Underflow returns zero without an
error, so only the overflow side is range-checked. -/
def goParseFloat32Ok (s : Bytes) : Bool :=
  let low := toLowerGo s
  if low = bytes "inf" ∨ low = bytes "+inf" ∨ low = bytes "-inf"
      ∨ low = bytes "infinity" ∨ low = bytes "+infinity" ∨ low = bytes "-infinity"
      ∨ low = bytes "nan" then true
  else
    let body := match s with
      | 43 :: r => r
      | 45 :: r => r
      | r => r
    match takeDigits body with
    | (ip, r1) =>
      let fr : Bytes × Bytes := match r1 with
        | 46 :: r => takeDigits r
        | _ => ([], r1)
      match fr with
      | (fp, r2) =>
        if ip = [] ∧ fp = [] then false
        else
          match r2 with
          | [] => floatRangeOk (digitsVal (ip ++ fp)) (-(fp.length : Int))
          | e :: r3 =>
            if toLowerByte e = 101 then
              let sr : Int × Bytes := match r3 with
                | 43 :: r => (1, r)
                | 45 :: r => (-1, r)
                | r => (1, r)
              match sr with
              | (esign, r4) =>
                match takeDigits r4 with
                | (ed, r5) =>
                  if ed = [] ∨ r5 ≠ [] then false
                  else floatRangeOk (digitsVal (ip ++ fp))
                    (esign * (digitsVal ed : Int) - (fp.length : Int))
            else false

/-- Two-digit decimal value. -/
def num2 (a b : Nat) : Nat := (a - 48) * 10 + (b - 48)

def leapYear (y : Nat) : Bool := y % 4 = 0 ∧ (y % 100 ≠ 0 ∨ y % 400 = 0)

def daysIn (mo y : Nat) : Nat :=
  if mo = 2 then (if leapYear y then 29 else 28)
  else if mo = 4 ∨ mo = 6 ∨ mo = 9 ∨ mo = 11 then 30 else 31

/-- Calendar validity of the fixed-layout date components. -/
def dateOk (y1 y2 y3 y4 m1 m2 d1 d2 : Nat) : Bool :=
  [y1, y2, y3, y4, m1, m2, d1, d2].all isDigit &&
  (let mo := num2 m1 m2
   let da := num2 d1 d2
   let yr := (y1 - 48) * 1000 + (y2 - 48) * 100 + (y3 - 48) * 10 + (y4 - 48)
   decide (1 ≤ mo ∧ mo ≤ 12 ∧ 1 ≤ da ∧ da ≤ daysIn mo yr))

/-- time.Parse("2006-01-02", s) succeeds: the exact 10-byte layout with
in-range month and day. -/
def goParseDate (s : Bytes) : Bool :=
  match s with
  | [y1, y2, y3, y4, 45, m1, m2, 45, d1, d2] => dateOk y1 y2 y3 y4 m1 m2 d1 d2
  | _ => false

/-- time.Parse("2006-01-02 15:04:05", s) succeeds: the exact 19-byte
layout with in-range date and clock components. -/
def goParseDatetime (s : Bytes) : Bool :=
  match s with
  | [y1, y2, y3, y4, 45, m1, m2, 45, d1, d2, 32, h1, h2, 58, mi1, mi2, 58, s1, s2] =>
    dateOk y1 y2 y3 y4 m1 m2 d1 d2 && [h1, h2, mi1, mi2, s1, s2].all isDigit &&
    decide (num2 h1 h2 ≤ 23 ∧ num2 mi1 mi2 ≤ 59 ∧ num2 s1 s2 ≤ 59)
  | _ => false

/-- What a rule returns on failure: an error kind plus extra context. -/
structure VErrCore where
  err : GoErr
  context : Ctx
deriving Repr, DecidableEq

/-- validators.go Validator: a named, stateless rule; RequiresValue
marks rules that are skipped on empty values. -/
structure GoValidator where
  name : String
  requiresValue : Bool
  validate : Bytes → Ctx → Option VErrCore

/-- Context lookup with Go's int type assertion (validators.go line 256). -/
def ctxInt (cxt : Ctx) (k : String) : Int :=
  match cxt.find? (fun p => decide (p.1 = k)) with
  | some (_, .int i) => i
  | _ => 0

/-- validators.go EncodingValidator (lines 67-98). -/
def EncodingValidator : GoValidator :=
  { name := "Encoding", requiresValue := true,
    validate := fun v _ =>
      if ¬ utf8Valid v then
        some ⟨ErrBadEncoding, [("badRunes", .badChars (badRunes v))]⟩
      else none }

/-- validators.go IntegerValidator (lines 127-143): strconv.ParseInt
base 10, bit size 32. -/
def IntegerValidator : GoValidator :=
  { name := "Integer", requiresValue := true,
    validate := fun v _ =>
      if (goParseInt v 32).isNone then some ⟨ErrTypeMismatchInt, []⟩ else none }

/-- validators.go BigIntegerValidator (lines 146-162): strconv.ParseInt
base 10, bit size 64. -/
def BigIntegerValidator : GoValidator :=
  { name := "BigInteger", requiresValue := true,
    validate := fun v _ =>
      if (goParseInt v 64).isNone then some ⟨ErrTypeMismatchInt, []⟩ else none }

/-- validators.go NumberValidator (lines 165-181): strconv.ParseFloat
bit size 32. -/
def NumberValidator : GoValidator :=
  { name := "Number", requiresValue := true,
    validate := fun v _ =>
      if ¬ goParseFloat32Ok v then some ⟨ErrTypeMismatchNum, []⟩ else none }

/-- validators.go DatetimeValidator (lines 210-226). -/
def DatetimeValidator : GoValidator :=
  { name := "Datetime", requiresValue := true,
    validate := fun v _ =>
      if ¬ goParseDatetime v then some ⟨ErrTypeMismatchDateTime, []⟩ else none }

/-- validators.go DateValidator (lines 184-207): a datetime is also
accepted as a date. -/
def DateValidator : GoValidator :=
  { name := "Date", requiresValue := true,
    validate := fun v cxt =>
      if ¬ goParseDate v then
        match DatetimeValidator.validate v cxt with
        | none => none
        | some _ => some ⟨ErrTypeMismatchDate, []⟩
      else none }

/-- validators.go RequiredValidator (lines 230-244): flags empty values;
RequiresValue is left at its zero value (false), so it runs on empty
values. -/
def RequiredValidator : GoValidator :=
  { name := "Required", requiresValue := false,
    validate := fun v _ =>
      if v = [] then some ⟨ErrRequiredValue, []⟩ else none }

/-- validators.go StringLengthValidator (lines 248-269). -/
def StringLengthValidator : GoValidator :=
  { name := "String Length", requiresValue := true,
    validate := fun v cxt =>
      let length := ctxInt cxt "length"
      if (v.length : Int) > length then
        some ⟨ErrLengthExceeded, [("maxLength", .int length)]⟩
      else none }

/-- validators.go BoundValidator: a validator closed over a context. -/
structure BoundValidator where
  validator : GoValidator
  context : Ctx

/-- validators.go BoundValidator.Validate. -/
def BoundValidator.Validate (b : BoundValidator) (v : Bytes) : Option VErrCore :=
  b.validator.validate v b.context

/-- validators.go Bind. -/
def Bind (v : GoValidator) (cxt : Ctx) : BoundValidator := ⟨v, cxt⟩

/-- Modelled from the spec: client.Field, the external schema
collaborator's field record — "Field: {name, type ∈ {string, integer,
biginteger, number, date, datetime, ...}, required, maxLength}". -/
structure Field where
  name : Bytes
  type : String
  required : Bool
  length : Int
deriving Repr

/-- Modelled from the spec: client.Fields.Get — the Table "exposes
lookup by name"; first field whose name matches. -/
def fieldsGet (fs : List Field) (n : Bytes) : Option Field :=
  fs.find? (fun f => decide (f.name = n))

/-- The type-specific tail of BindFieldValidators (validators.go lines
304-322): the switch on the field's declared type.  Types outside the
switch bind nothing (the source only logs a configuration gap). -/
def typeValidators (f : Field) : List BoundValidator :=
  if f.type = "string" ∨ f.type = "clob" ∨ f.type = "text" then
    if f.length > 0 then [Bind StringLengthValidator [("length", .int f.length)]] else []
  else if f.type = "integer" then [Bind IntegerValidator []]
  else if f.type = "biginteger" then [Bind BigIntegerValidator []]
  else if f.type = "number" ∨ f.type = "float" ∨ f.type = "decimal" then [Bind NumberValidator []]
  else if f.type = "date" then [Bind DateValidator []]
  else if f.type = "datetime" ∨ f.type = "timestamp" then [Bind DatetimeValidator []]
  else []

/-- validators.go BindFieldValidators (lines 294-325): Encoding first,
then Required for required fields, then the type-specific rule. -/
def BindFieldValidators (f : Field) : List BoundValidator :=
  [Bind EncodingValidator []]
  ++ (if f.required then [Bind RequiredValidator []] else [])
  ++ typeValidators f

/-- validator.go lines 61-78, the per-value rule loop: rules with
RequiresValue are skipped on an empty value; the first failing rule's
error is returned and the loop breaks (one error per field per row). -/
def runRules (bvs : List BoundValidator) (v : Bytes) : Option VErrCore :=
  match bvs with
  | [] => none
  | bv :: rest =>
    if bv.validator.requiresValue ∧ v = [] then runRules rest v
    else
      match bv.Validate v with
      | some e => some e
      | none => runRules rest v

/-- The per-table state Init leaves behind: the schema width, the
position-to-field map and the compiled plan. -/
structure TableCtx where
  length : Nat
  fieldAt : List (Nat × Field)
  plan : List (Bytes × List BoundValidator)

/-- Plan.FieldValidators lookup (a Go map access; a name that was never
bound yields the empty rule list, as a nil slice ranges over nothing). -/
def planFind (plan : List (Bytes × List BoundValidator)) (n : Bytes) : List BoundValidator :=
  match plan.find? (fun p => decide (p.1 = n)) with
  | some p => p.2
  | none => []

/-- t.fields lookup by position (a Go map access). -/
def fieldAtPos (l : List (Nat × Field)) (i : Nat) : Option Field :=
  (l.find? (fun p => decide (p.1 = i))).map (·.2)

/-- validator.go TableValidator.validateRow (lines 32-82): a row whose
width differs from the schema width yields one line-level error and no
per-field checks; otherwise each value runs its field's rule list and
contributes at most its first rule failure.  After a successful Init the
position map is total, so the `none` arm (a nil map entry the Go code
would fault on) never runs. -/
def validateRow (t : TableCtx) (lineNo : Nat) (row : List Bytes) : List VError :=
  if row.length ≠ t.length then
    [{ err := ErrExtraColumns, line := lineNo, field := [], value := [],
       context := [("expected", .int t.length), ("actual", .int row.length)] }]
  else
    row.enum.flatMap fun p =>
      match fieldAtPos t.fieldAt p.1 with
      | none => []
      | some f =>
        match runRules (planFind t.plan f.name) p.2 with
        | some e => [{ err := e.err, line := lineNo, field := f.name, value := p.2,
                       context := e.context }]
        | none => []

/-- The header-matching loop of Init (validator.go lines 112-120): the
matched names, the position map and the unknown names, in header order. -/
def headerScan (tfs : List Field) (hdr : List Bytes) :
    List Bytes × List (Nat × Field) × List Bytes :=
  hdr.enum.foldl
    (fun acc p =>
      match fieldsGet tfs p.2 with
      | some f => (acc.1 ++ [p.2], acc.2.1 ++ [(p.1, f)], acc.2.2)
      | none => (acc.1, acc.2.1, acc.2.2 ++ [p.2]))
    ([], [], [])

/-- The missing-field loop of Init (validator.go lines 122-127): schema
fields whose name was never matched, in schema order. -/
def missingOf (tfs : List Field) (validNames : List Bytes) : List Bytes :=
  (tfs.filter (fun f => ¬ validNames.contains f.name)).map (·.name)

/-- The unknown header names computed by Init on a given header. -/
def unknownOf (tfs : List Field) (head : List Bytes) : List Bytes :=
  (headerScan tfs (head.map toLowerGo)).2.2

/-- The missing schema names computed by Init on a given header. -/
def missingHdr (tfs : List Field) (head : List Bytes) : List Bytes :=
  missingOf tfs (headerScan tfs (head.map toLowerGo)).1

/-- The position map computed by Init on a given header. -/
def posOf (tfs : List Field) (head : List Bytes) : List (Nat × Field) :=
  (headerScan tfs (head.map toLowerGo)).2.1

/-- validator.go TableValidator.Init (lines 98-155), after the header
row has been read into `head`: fail with one structured BadHeader error
if the length or the matched sets are off; otherwise compile the plan. -/
def initHeader (L : Nat) (tfs : List Field) (head : List Bytes) : Except VError TableCtx :=
  if head.length ≠ L ∨ unknownOf tfs head ≠ [] ∨ missingHdr tfs head ≠ [] then
    .error { err := ErrBadHeader, line := 0, field := [], value := [],
             context := [("expectedLength", .int L), ("actualLength", .int head.length),
                         ("unknownFields", .strs (unknownOf tfs head)),
                         ("missingFields", .strs (missingHdr tfs head))] }
  else
    .ok { length := L, fieldAt := posOf tfs head,
          plan := (posOf tfs head).map (fun p => (p.2.name, BindFieldValidators p.2)) }

/-- Init's failure modes: end of stream, or a ValidationError (from the
reader or the header check). -/
inductive InitErr where
  | eofI
  | verr (e : VError)
deriving Repr, DecidableEq

/-- validator.go TableValidator.Init (lines 86-156): read the header row
through the greedy reader (line 1), then check it.  The record starts as
make([]string, size). -/
def initV (tfs : List Field) (lines : List Bytes) :
    Except InitErr (TableCtx × List Bytes × List Bytes) :=
  match lines with
  | [] => .error .eofI
  | line :: rest =>
    match greedyRead 1 (List.replicate tfs.length []) line with
    | (_, some e) => .error (.verr e)
    | (rec1, none) =>
      match initHeader tfs.length tfs rec1 with
      | .error e => .error (.verr e)
      | .ok ctx => .ok (ctx, rec1, rest)

/-- The running state of Run: the reader's line counter, the shared
record and the result log (append-ordered). -/
structure RunSt where
  line : Nat
  record : List Bytes
  log : List VError
deriving Repr, DecidableEq

/-- validator.go Next (lines 159-174): read one line greedily; a
ValidationError is logged and scanning continues; otherwise the row (the
shared record as mutated) is validated. -/
def nextStep (t : TableCtx) (st : RunSt) (line : Bytes) : RunSt :=
  match greedyRead (st.line + 1) st.record line with
  | (rec2, some e) => ⟨st.line + 1, rec2, st.log ++ [e]⟩
  | (rec2, none) => ⟨st.line + 1, rec2, st.log ++ validateRow t (st.line + 1) rec2⟩

/-- validator.go Run (lines 178-192): Next until EOF. -/
def runLoop (t : TableCtx) (st : RunSt) : List Bytes → RunSt
  | [] => st
  | line :: rest => runLoop t (nextStep t st line) rest

/-- New + Init + Run + Result: validate a stream (as its newline-split
lines) against a table; either the error Init returned (the validator
then never streams rows) or the append-ordered error log. -/
def runTable (tfs : List Field) (lines : List Bytes) : Except InitErr (List VError) :=
  match initV tfs lines with
  | .error e => .error e
  | .ok (ctx, rec1, rest) => .ok (runLoop ctx ⟨1, rec1, []⟩ rest).log

/-- errors.go Result.LineErrors at one kind: the line-level entries
(empty Field) of that kind, in append order. -/
def lineErrorsOf (log : List VError) (k : GoErr) : List VError :=
  log.filter (fun e => decide (e.field = []) && decide (e.err = k))

/-- errors.go Result.FieldErrors at one field and kind, in append order. -/
def fieldErrorsOf (log : List VError) (f : Bytes) (k : GoErr) : List VError :=
  log.filter (fun e => decide (e.field = f) && decide (e.err = k))

/-- cmd/validator/main.go errLineSteps (lines 599-636): compress the
line numbers of an error list into steps, flushing the open step
whenever the next line is not `start + 1`. -/
def stepsLoop : List Nat → Nat → Nat → List String → List String
  | [], start, endv, steps =>
    if start = endv then steps ++ [toString start]
    else steps ++ [toString start ++ "-" ++ toString endv]
  | l :: rest, start, endv, steps =>
    if start = 0 then stepsLoop rest l l steps
    else if l = start + 1 then stepsLoop rest start l steps
    else if start = endv then stepsLoop rest l l (steps ++ [toString start])
    else stepsLoop rest l l (steps ++ [toString start ++ "-" ++ toString endv])

/-- cmd/validator/main.go errLineSteps: the rendered line ranges for an
error list, in occurrence order. -/
def errLineSteps (errs : List VError) : List String :=
  stepsLoop (errs.map (·.line)) 0 0 []

/-- Fuel-indexed twin of scanFieldLoop: the same body with a structural
fuel argument, so closed applications reduce inside the kernel.
`scanFieldLoopF_eq` shows it computes scanFieldLoop. -/
def scanFieldLoopF : Nat → CSVState → Bytes → Bool → Nat → Option SFRes
  | 0, _, _, _, _ => none
  | fuel + 1, s, data, atEOF, acc =>
    match scanField s data atEOF with
    | ⟨adv, tok, err, st⟩ =>
      if err.isSome ∨ adv = 0 ∨ tok.isSome then some ⟨acc + adv, tok, err, st⟩
      else scanFieldLoopF fuel st (data.drop adv) atEOF (acc + adv)

theorem scanFieldLoopF_eq (fuel : Nat) : ∀ (s : CSVState) (data : Bytes) (atEOF : Bool)
    (acc : Nat), data.length + 1 ≤ fuel →
    scanFieldLoopF fuel s data atEOF acc = some (scanFieldLoop s data atEOF acc) := by
  induction fuel with
  | zero => intro s data atEOF acc h; omega
  | succ fuel ih =>
    intro s data atEOF acc h
    rw [scanFieldLoopF, scanFieldLoop]
    cases hr : scanField s data atEOF with
    | mk adv tok err st =>
      dsimp only
      split
      · rfl
      · rename_i hcond
        apply ih
        simp only [not_or] at hcond
        have hadv : adv ≠ 0 := hcond.2.1
        have hlen : data ≠ [] := by
          intro hnil
          subst hnil
          have := (scanField_nil s atEOF).1
          rw [hr] at this
          exact hadv this
        have hpos : 0 < data.length := List.length_pos.mpr hlen
        simp only [List.length_drop]
        omega

/-- Fuel-indexed twin of scanGo (its recursion depth is at most two:
once eofSeen is recorded no further recursion happens). -/
def scanGoF : Nat → CSVState → Bytes → Bool → Option ScanRes
  | 0, _, _, _ => none
  | fuel + 1, s, data, eofSeen =>
    if data = [] ∧ eofSeen = false then scanGoF fuel s data true
    else
      match scanFieldLoopF (data.length + 1) s data eofSeen 0 with
      | none => none
      | some r =>
        match r.err with
        | some e => some (.errS e r.st data)
        | none =>
          match r.token with
          | some t => some (.tok t r.st (data.drop r.advance) eofSeen)
          | none =>
            if eofSeen then some (.done r.st (data.drop r.advance))
            else scanGoF fuel r.st (data.drop r.advance) true

theorem scanGoF_eq (fuel : Nat) : ∀ (s : CSVState) (data : Bytes) (eofSeen : Bool),
    2 ≤ fuel + (if eofSeen then 1 else 0) →
    scanGoF fuel s data eofSeen = some (scanGo s data eofSeen) := by
  induction fuel with
  | zero => intro s data eofSeen h; cases eofSeen <;> simp at h
  | succ fuel ih =>
    intro s data eofSeen h
    rw [scanGoF, scanGo]
    split
    · rename_i hc
      obtain ⟨h1, h2⟩ := hc
      subst h2
      apply ih
      simp at h ⊢
      omega
    · rw [scanFieldLoopF_eq _ _ _ _ _ (by omega)]
      cases he : (scanFieldLoop s data eofSeen 0).err with
      | some e => simp [he]
      | none =>
        simp only [he]
        cases ht : (scanFieldLoop s data eofSeen 0).token with
        | some t => simp [ht]
        | none =>
          simp only [ht]
          cases eofSeen with
          | true => simp
          | false =>
            simp only [Bool.false_eq_true, if_false]
            apply ih
            simp at h ⊢
            omega

/-- Fuel-indexed twin of parseLoop. -/
def parseLoopF : Nat → Nat → CSVState → Bytes → Bool → List Bytes → Nat →
    Option (Nat × Option LexErr × List Bytes)
  | 0, _, _, _, _, _, _ => none
  | fuel + 1, m, s, data, eofSeen, t, i =>
    match scanGoF 2 s data eofSeen with
    | none => none
    | some (.done s2 _) => some (s2.column, none, t)
    | some (.errS e s2 _) => some (s2.column, some e, t)
    | some (.tok tok s2 data2 eof2) =>
      if i = m then some (s2.column, some (.tooManyColumns m), t)
      else if s2.eor then some (s2.column, none, t.set i tok)
      else parseLoopF fuel m s2 data2 eof2 (t.set i tok) (i + 1)

theorem parseLoopF_eq (fuel : Nat) : ∀ (m : Nat) (s : CSVState) (data : Bytes)
    (eofSeen : Bool) (t : List Bytes) (i : Nat), data.length + 1 ≤ fuel →
    parseLoopF fuel m s data eofSeen t i = some (parseLoop m s data eofSeen t i) := by
  induction fuel with
  | zero => intro m s data eofSeen t i h; omega
  | succ fuel ih =>
    intro m s data eofSeen t i h
    rw [parseLoopF, parseLoop]
    rw [scanGoF_eq 2 s data eofSeen (by split <;> omega)]
    cases hg : scanGo s data eofSeen with
    | done s2 d2 => rfl
    | errS e s2 d2 => rfl
    | tok tok s2 data2 eof2 =>
      simp only
      split
      · rfl
      · split
        · rfl
        · apply ih
          have := scanGo_tok_lt s data eofSeen tok s2 data2 eof2 hg
          omega

/-- parseCSVLine computed through the fuel-indexed twin: the right-hand
side is a closed computation the kernel can evaluate. -/
theorem parseCSVLine_evalF (line : Bytes) (t : List Bytes) :
    parseCSVLine line t =
      (parseLoopF (line.length + 1) t.length { initCSV SEP with comment := HASH }
        line false t 0).getD (0, none, t) := by
  rw [parseCSVLine, parseLoopF_eq (line.length + 1) _ _ _ _ _ _ (by omega)]
  rfl

/-- greedyRead in kernel-evaluable form. -/
theorem greedyRead_evalF (lineNo : Nat) (rec : List Bytes) (line : Bytes) :
    greedyRead lineNo rec line =
      (match (parseLoopF (line.length + 1) rec.length { initCSV SEP with comment := HASH }
          line false rec 0).getD (0, none, rec) with
       | (col, some _, rec2) =>
         (rec2, some { err := ErrBareQuote, line := lineNo, field := [], value := line,
                       context := [("column", .int col)] })
       | (_, none, rec2) => (rec2, none)) := by
  rw [greedyRead, parseCSVLine_evalF]

example :
    greedyRead 3 [[], []] (bytes "a,\"b\"") =
      ([[], []], some { err := ErrBareQuote, line := 3, field := [], value := bytes "a,\"b\"",
                        context := [("column", .int 1)] }) := by
  rw [greedyRead_evalF]
  decide

/-- C8 (code evaluated at the failing input): with one error on each of
the lines 3, 4, 5 and 9, errLineSteps renders "3-4", "5", "9" rather
than the "3-5", "9" the compression is documented to produce — the
flush test `err.Line == start+1` compares against the start of the run
instead of its end, so a run of three or more consecutive lines is
split after its first two members. -/
theorem errLineSteps_splits_long_runs :
    errLineSteps
      [{ err := ErrBareQuote, line := 3, field := [], value := [], context := [] },
       { err := ErrBareQuote, line := 4, field := [], value := [], context := [] },
       { err := ErrBareQuote, line := 5, field := [], value := [], context := [] },
       { err := ErrBareQuote, line := 9, field := [], value := [], context := [] }] =
      ["3-4", "5", "9"] ∧ (["3-4", "5", "9"] ≠ ["3-5", "9"]) := by
  constructor
  · rfl
  · decide

/-- C3: for every schema field marked required, validating an empty
value for it yields exactly one field-level error, of kind
RequiredValue, and no other error: every RequiresValue rule (Encoding
and all type rules) is skipped on the empty value, while Required
itself runs and flags it, and the loop breaks at this first error. -/
theorem required_empty_yields_single_required_error (f : Field) (n : Nat)
    (h : f.required = true) :
    runRules (BindFieldValidators f) [] = some ⟨ErrRequiredValue, []⟩ ∧
    validateRow ⟨1, [(0, f)], [(f.name, BindFieldValidators f)]⟩ n [[]] =
      [{ err := ErrRequiredValue, line := n, field := f.name, value := [], context := [] }] := by
  have hrun : runRules (BindFieldValidators f) [] = some ⟨ErrRequiredValue, []⟩ := by
    simp [BindFieldValidators, h, runRules, Bind, BoundValidator.Validate,
      EncodingValidator, RequiredValidator]
  refine ⟨hrun, ?_⟩
  simp [validateRow, List.enum, fieldAtPos, planFind, hrun]

theorem required_empty_yields_single_required_error_witness :
    runRules (BindFieldValidators ⟨bytes "a", "integer", true, 0⟩) [] =
      some ⟨ErrRequiredValue, []⟩ ∧
    validateRow ⟨1, [(0, ⟨bytes "a", "integer", true, 0⟩)],
        [(bytes "a", BindFieldValidators ⟨bytes "a", "integer", true, 0⟩)]⟩ 2 [[]] =
      [{ err := ErrRequiredValue, line := 2, field := bytes "a", value := [], context := [] }] :=
  required_empty_yields_single_required_error ⟨bytes "a", "integer", true, 0⟩ 2 rfl

theorem runRules_nil (v : Bytes) : runRules [] v = none := rfl

theorem runRules_cons (bv : BoundValidator) (rest : List BoundValidator) (v : Bytes) :
    runRules (bv :: rest) v =
      if bv.validator.requiresValue ∧ v = [] then runRules rest v
      else
        match bv.Validate v with
        | some e => some e
        | none => runRules rest v := rfl

/-- Any error the rule loop returns was produced by a rule of the list. -/
theorem runRules_mem (bvs : List BoundValidator) (v : Bytes) (e : VErrCore)
    (h : runRules bvs v = some e) : ∃ bv ∈ bvs, bv.Validate v = some e := by
  induction bvs with
  | nil => simp [runRules_nil] at h
  | cons bv rest ih =>
    rw [runRules_cons] at h
    split at h
    · obtain ⟨b, hb, hv⟩ := ih h
      exact ⟨b, by simp [hb], hv⟩
    · cases hv : bv.Validate v with
      | some e2 =>
        rw [hv] at h
        simp only [Option.some.injEq] at h
        subst h
        exact ⟨bv, by simp, hv⟩
      | none =>
        rw [hv] at h
        obtain ⟨b, hb, hv2⟩ := ih h
        exact ⟨b, by simp [hb], hv2⟩

/-- C7: plan compilation binds, in order, Encoding first, Required
exactly when the field is required, then at most one type-specific rule
chosen by the declared type (a length rule for string/clob/text only
when a positive maximum is set, and the matching rule for integer,
biginteger, number, date and datetime); a type outside the switch binds
no type rule, so no value of such a field is ever flagged with anything
beyond the always-bound Encoding/Required rules. -/
theorem plan_compilation_order (f : Field) :
    (BindFieldValidators f).map (fun b => b.validator.name) =
      "Encoding" :: ((if f.required then ["Required"] else []) ++
        (typeValidators f).map (fun b => b.validator.name)) ∧
    (f.type = "integer" → (typeValidators f).map (fun b => b.validator.name) = ["Integer"]) ∧
    (f.type = "biginteger" →
      (typeValidators f).map (fun b => b.validator.name) = ["BigInteger"]) ∧
    (f.type = "number" → (typeValidators f).map (fun b => b.validator.name) = ["Number"]) ∧
    (f.type = "date" → (typeValidators f).map (fun b => b.validator.name) = ["Date"]) ∧
    (f.type = "datetime" → (typeValidators f).map (fun b => b.validator.name) = ["Datetime"]) ∧
    ((f.type = "string" ∨ f.type = "clob" ∨ f.type = "text") →
      (typeValidators f).map (fun b => b.validator.name) =
        if f.length > 0 then ["String Length"] else []) ∧
    (f.type ∉ ["string", "clob", "text", "integer", "biginteger", "number", "float",
        "decimal", "date", "datetime", "timestamp"] →
      typeValidators f = [] ∧
      ∀ v e, runRules (BindFieldValidators f) v = some e →
        e.err = ErrBadEncoding ∨ e.err = ErrRequiredValue) := by
  refine ⟨?_, ?_, ?_, ?_, ?_, ?_, ?_, ?_⟩
  · simp [BindFieldValidators, Bind, EncodingValidator]
    split <;> simp [RequiredValidator]
  · intro ht; simp [typeValidators, ht, Bind, IntegerValidator]
  · intro ht; simp [typeValidators, ht, Bind, BigIntegerValidator]
  · intro ht; simp [typeValidators, ht, Bind, NumberValidator]
  · intro ht; simp [typeValidators, ht, Bind, DateValidator]
  · intro ht; simp [typeValidators, ht, Bind, DatetimeValidator]
  · intro ht
    rcases ht with ht | ht | ht <;>
      · simp [typeValidators, ht, Bind, StringLengthValidator]
        split <;> simp
  · intro ht
    simp only [List.mem_cons, not_or] at ht
    obtain ⟨h1, h2, h3, h4, h5, h6, h7, h8, h9, h10, h11, -⟩ := ht
    have htv : typeValidators f = [] := by
      simp [typeValidators, h1, h2, h3, h4, h5, h6, h7, h8, h9, h10, h11]
    refine ⟨htv, ?_⟩
    intro v e he
    rw [BindFieldValidators, htv] at he
    obtain ⟨bv, hmem, hval⟩ := runRules_mem _ _ _ he
    simp only [List.append_nil, List.mem_append, List.mem_singleton] at hmem
    rcases hmem with hbv | hbv
    · left
      subst hbv
      simp only [BoundValidator.Validate, Bind, EncodingValidator] at hval
      split at hval
      · cases hval; rfl
      · simp at hval
    · right
      by_cases hreq : f.required
      · simp only [hreq, if_true, List.mem_singleton] at hbv
        subst hbv
        simp only [BoundValidator.Validate, Bind, RequiredValidator] at hval
        split at hval
        · cases hval; rfl
        · simp at hval
      · simp [hreq] at hbv

theorem plan_compilation_order_witness :
    (typeValidators ⟨bytes "a", "integer", true, 0⟩).map (fun b => b.validator.name) =
      ["Integer"] :=
  (plan_compilation_order ⟨bytes "a", "integer", true, 0⟩).2.1 rfl

/-- The specification's reading of "parses as a base-10 signed integer":
an optional single sign followed by at least one decimal digit,
denoting the integer `n`. -/
def SpecDecimalInt (s : Bytes) (n : Int) : Prop :=
  ∃ sign ds, (sign = [] ∨ sign = [43] ∨ sign = [45]) ∧ ds ≠ [] ∧
    (∀ d ∈ ds, isDigit d = true) ∧ s = sign ++ ds ∧
    n = (if sign = [45] then -(digitsVal ds : Int) else (digitsVal ds : Int))

/-- The specification's "fits in the signed w-bit range". -/
def SpecFitsSigned (s : Bytes) (w : Nat) : Prop :=
  ∃ n : Int, SpecDecimalInt s n ∧ -(2 ^ (w - 1) : Int) ≤ n ∧ n ≤ 2 ^ (w - 1) - 1

theorem parseIntCore_iff (neg : Bool) (ds : Bytes) (w : Nat) :
    (parseIntCore neg ds w).isSome ↔
      (ds ≠ [] ∧ (∀ d ∈ ds, isDigit d = true) ∧
        -(2 ^ (w - 1) : Int) ≤ (if neg then -(digitsVal ds : Int) else (digitsVal ds : Int)) ∧
        (if neg then -(digitsVal ds : Int) else (digitsVal ds : Int)) ≤ 2 ^ (w - 1) - 1) := by
  cases neg
  all_goals rw [parseIntCore]
  all_goals simp only [Bool.false_eq_true, if_false, if_true]
  all_goals split
  all_goals rename_i hc
  · constructor
    · intro h; simp at h
    · rintro ⟨h1, h2, -⟩
      rcases hc with hc | hc
      · exact absurd hc h1
      · exact absurd h2 (by simpa [List.all_eq_true] using hc)
  · simp only [not_or, Decidable.not_not, List.all_eq_true] at hc
    split
    · rename_i hr
      simp only [Option.isSome_some, true_iff]
      exact ⟨hc.1, hc.2, hr.1, hr.2⟩
    · rename_i hr
      constructor
      · intro h; simp at h
      · rintro ⟨-, -, hlo, hhi⟩
        exact absurd ⟨hlo, hhi⟩ hr
  · constructor
    · intro h; simp at h
    · rintro ⟨h1, h2, -⟩
      rcases hc with hc | hc
      · exact absurd hc h1
      · exact absurd h2 (by simpa [List.all_eq_true] using hc)
  · simp only [not_or, Decidable.not_not, List.all_eq_true] at hc
    split
    · rename_i hr
      simp only [Option.isSome_some, true_iff]
      exact ⟨hc.1, hc.2, hr.1, hr.2⟩
    · rename_i hr
      constructor
      · intro h; simp at h
      · rintro ⟨-, -, hlo, hhi⟩
        exact absurd ⟨hlo, hhi⟩ hr

/-- Go's ParseInt succeeds exactly on the spec's signed decimals in
range. -/
theorem goParseInt_iff (s : Bytes) (w : Nat) :
    (goParseInt s w).isSome ↔ SpecFitsSigned s w := by
  constructor
  · intro h
    rw [goParseInt.eq_def] at h
    split at h
    · rw [parseIntCore_iff] at h
      obtain ⟨h1, h2, h3, h4⟩ := h
      simp only [if_neg (by simp : ¬false = true)] at h3 h4
      exact ⟨digitsVal _, ⟨[43], _, by simp, h1, h2, rfl, by simp⟩, h3, h4⟩
    · rw [parseIntCore_iff] at h
      obtain ⟨h1, h2, h3, h4⟩ := h
      simp only [if_pos rfl] at h3 h4
      exact ⟨-(digitsVal _), ⟨[45], _, by simp, h1, h2, rfl, by simp⟩, h3, h4⟩
    · rw [parseIntCore_iff] at h
      obtain ⟨h1, h2, h3, h4⟩ := h
      simp only [if_neg (by simp : ¬false = true)] at h3 h4
      exact ⟨digitsVal _, ⟨[], s, by simp, h1, h2, by simp, by simp⟩, h3, h4⟩
  · rintro ⟨n, ⟨sign, ds, hsign, hne, hdig, hs, hn⟩, hlo, hhi⟩
    subst hs
    have hhead : ∀ d ∈ ds, d ≠ 43 ∧ d ≠ 45 := by
      intro d hd
      have := hdig d hd
      simp [isDigit] at this
      omega
    rcases hsign with h1 | h1 | h1
    all_goals subst h1
    · cases ds with
      | nil => simp at hne
      | cons d r =>
        have hd := hhead d (by simp)
        rw [goParseInt.eq_def]
        simp only [List.nil_append]
        split
        all_goals rename_i hpat
        · exact absurd (by simpa using congrArg List.head? hpat) hd.1
        · exact absurd (by simpa using congrArg List.head? hpat) hd.2
        · rw [parseIntCore_iff]
          refine ⟨hne, hdig, ?_, ?_⟩
          all_goals simp only [if_neg (by simp : ¬false = true)]
          all_goals simp only [hn, if_neg (by simp : ¬([] : Bytes) = [45])] at hlo hhi
          all_goals assumption
    · rw [goParseInt.eq_def]
      simp only [List.cons_append, List.nil_append]
      rw [parseIntCore_iff]
      refine ⟨hne, hdig, ?_, ?_⟩
      all_goals simp only [if_neg (by simp : ¬false = true)]
      all_goals simp only [hn, if_neg (by simp : ¬([43] : Bytes) = [45])] at hlo hhi
      all_goals assumption
    · rw [goParseInt.eq_def]
      simp only [List.cons_append, List.nil_append]
      rw [parseIntCore_iff]
      refine ⟨hne, hdig, ?_, ?_⟩
      all_goals simp only [if_pos rfl]
      all_goals simp only [hn, if_pos rfl] at hlo hhi
      all_goals assumption

/-- C6: the Integer rule returns a TypeMismatch(Int) error exactly when
the value is not a base-10 signed 32-bit integer and accepts it
otherwise; BigInteger does the same against the 64-bit range (and uses
the same TypeMismatch(Int) kind); concretely, an integer field given
"99999999999999" yields exactly one TypeMismatch(Int) error for that
value and the same field given "42" yields none. -/
theorem integer_rules_match_bit_ranges (s : Bytes) (cxt : Ctx) (n : Nat) :
    (IntegerValidator.validate s cxt = some ⟨ErrTypeMismatchInt, []⟩ ↔ ¬ SpecFitsSigned s 32) ∧
    (IntegerValidator.validate s cxt = none ↔ SpecFitsSigned s 32) ∧
    (BigIntegerValidator.validate s cxt = some ⟨ErrTypeMismatchInt, []⟩ ↔ ¬ SpecFitsSigned s 64) ∧
    (BigIntegerValidator.validate s cxt = none ↔ SpecFitsSigned s 64) ∧
    validateRow ⟨1, [(0, ⟨bytes "a", "integer", false, 0⟩)],
        [(bytes "a", BindFieldValidators ⟨bytes "a", "integer", false, 0⟩)]⟩ n
        [bytes "99999999999999"] =
      [{ err := ErrTypeMismatchInt, line := n, field := bytes "a",
         value := bytes "99999999999999", context := [] }] ∧
    validateRow ⟨1, [(0, ⟨bytes "a", "integer", false, 0⟩)],
        [(bytes "a", BindFieldValidators ⟨bytes "a", "integer", false, 0⟩)]⟩ n
        [bytes "42"] = [] := by
  have h32 := goParseInt_iff s 32
  have h64 := goParseInt_iff s 64
  refine ⟨?_, ?_, ?_, ?_, ?_, ?_⟩
  · simp only [IntegerValidator, ← h32, Option.isNone_iff_eq_none]
    cases hg : goParseInt s 32 <;> simp [hg]
  · simp only [IntegerValidator, ← h32, Option.isNone_iff_eq_none]
    cases hg : goParseInt s 32 <;> simp [hg]
  · simp only [BigIntegerValidator, ← h64, Option.isNone_iff_eq_none]
    cases hg : goParseInt s 64 <;> simp [hg]
  · simp only [BigIntegerValidator, ← h64, Option.isNone_iff_eq_none]
    cases hg : goParseInt s 64 <;> simp [hg]
  · have hrr : runRules (BindFieldValidators ⟨[97], "integer", false, 0⟩)
        [57, 57, 57, 57, 57, 57, 57, 57, 57, 57, 57, 57, 57, 57] =
        some ⟨ErrTypeMismatchInt, []⟩ := by decide
    simp [validateRow, List.enum, fieldAtPos, planFind, bytes, hrr]
  · have hrr : runRules (BindFieldValidators ⟨[97], "integer", false, 0⟩) [52, 50] = none := by
      decide
    simp [validateRow, List.enum, fieldAtPos, planFind, bytes, hrr]

/-- C1 counterexample: the scanner raises two different lexical errors
on the lines `a,"b"` (unquoted field) and `""a""` (unescaped quote),
yet the greedy row-read logs the same kind, ErrBareQuote (code 203,
"Value contains bare double quotes"), for both — the logged kind is a
constant, not the kind mapped from the lexical error, and in particular
it is not an unquoted-field kind. -/
theorem greedyRead_always_logs_bare_quote :
    (parseCSVLine (bytes "a,\"b\"") [[], []]).2.1 = some (.unquotedField 1 1) ∧
    (parseCSVLine (bytes "\"\"a\"\"") [[], []]).2.1 = some (.unescapedQuote 1 1) ∧
    (greedyRead 2 [[], []] (bytes "a,\"b\"")).2.map (fun e => e.err) = some ErrBareQuote ∧
    (greedyRead 2 [[], []] (bytes "\"\"a\"\"")).2.map (fun e => e.err) = some ErrBareQuote ∧
    ErrBareQuote.code = 203 ∧
    ErrBareQuote.description = "Value contains bare double quotes (\")" := by
  refine ⟨?_, ?_, ?_, ?_, rfl, rfl⟩
  all_goals first
    | (rw [parseCSVLine_evalF]; decide)
    | (rw [greedyRead_evalF]; decide)

/-- C1 amended: a line whose first field is bare (its first byte is not
a quote, and not a separator, newline or comment marker, so the field
is unquoted and non-empty) makes one greedy Read call produce exactly
one line-level error whose kind is always ErrBareQuote (code 203,
whatever lexical error the scanner raised), whose context reports
column 1 and whose value is the raw text of the offending line; the
record is untouched and the next call reads the following line
normally. -/
theorem greedyRead_bare_first_field (n : Nat) (rec : List Bytes) (b : Nat) (rest : Bytes)
    (hq : b ≠ 34) (hs : b ≠ 44) (hn : b ≠ 10) (hh : b ≠ 35) :
    greedyRead n rec (b :: rest) =
      (rec, some { err := ErrBareQuote, line := n, field := [], value := b :: rest,
                   context := [("column", .int 1)] }) ∧
    greedyRead (n + 1) [[], []] (bytes "\"c\",\"d\"") = ([bytes "c", bytes "d"], none) := by
  constructor
  · have hsf : scanField { initCSV SEP with comment := HASH } (b :: rest) false =
        ⟨0, none, some (.unquotedField 1 1), ⟨44, 35, true, 1, 1⟩⟩ := by
      rw [scanField]
      simp [initCSV, SEP, HASH, QU, NL, bumpColumn, unquotedScan, uloop, hq, hs, hn, hh]
    have hw : scanFieldLoop { initCSV SEP with comment := HASH } (b :: rest) false 0 =
        ⟨0, none, some (.unquotedField 1 1), ⟨44, 35, true, 1, 1⟩⟩ := by
      rw [scanFieldLoop, hsf]
      simp
    have hg : scanGo { initCSV SEP with comment := HASH } (b :: rest) false =
        .errS (.unquotedField 1 1) ⟨44, 35, true, 1, 1⟩ (b :: rest) := by
      rw [scanGo, hw]
      simp
    rw [greedyRead, parseCSVLine, parseLoop, hg]
    simp
  · rw [greedyRead_evalF]
    rw [show (parseLoopF ((bytes "\"c\",\"d\"").length + 1) ([[], []] : List Bytes).length
        { initCSV SEP with comment := HASH } (bytes "\"c\",\"d\"") false [[], []] 0).getD
        (0, none, [[], []]) = (3, none, [bytes "c", bytes "d"]) from by decide]

theorem greedyRead_bare_first_field_witness :
    greedyRead 2 [[], []] (97 :: [44, 34, 98, 34]) =
      ([[], []], some { err := ErrBareQuote, line := 2, field := [],
                        value := 97 :: [44, 34, 98, 34], context := [("column", .int 1)] }) ∧
    greedyRead 3 [[], []] (bytes "\"c\",\"d\"") = ([bytes "c", bytes "d"], none) :=
  greedyRead_bare_first_field 2 [[], []] 97 [44, 34, 98, 34]
    (by decide) (by decide) (by decide) (by decide)

deriving instance DecidableEq for Except

/-- The two-integer-column table of the row-width scenario. -/
def twoIntFields : List Field :=
  [⟨bytes "a", "integer", false, 0⟩, ⟨bytes "b", "integer", false, 0⟩]

/-- The row-width scenario: a correct header, then data rows where rows
1 and 3 have the correct width and row 2 has one extra column. -/
def rowWidthLines : List Bytes :=
  [bytes "\"a\",\"b\"", bytes "\"1\",\"2\"", bytes "\"1\",\"2\",\"3\"", bytes "\"x\",\"4\""]

/-- The full greedy run of the row-width scenario. -/
theorem rowWidth_run :
    runTable twoIntFields rowWidthLines =
      .ok [{ err := ErrBareQuote, line := 3, field := [], value := bytes "\"1\",\"2\",\"3\"",
             context := [("column", .int 4)] },
           { err := ErrTypeMismatchInt, line := 4, field := bytes "a", value := bytes "x",
             context := [] }] := by
  rw [runTable]
  simp only [initV, rowWidthLines, greedyRead_evalF]
  rw [show (parseLoopF ((bytes "\"a\",\"b\"").length + 1) (List.replicate twoIntFields.length []).length
      { initCSV SEP with comment := HASH } (bytes "\"a\",\"b\"") false
      (List.replicate twoIntFields.length []) 0).getD (0, none, List.replicate twoIntFields.length []) =
      (3, none, [bytes "a", bytes "b"]) from by decide]
  simp only
  rw [show initHeader twoIntFields.length twoIntFields [bytes "a", bytes "b"] =
      initHeader 2 twoIntFields [bytes "a", bytes "b"] from rfl]
  rw [initHeader, if_neg (by decide)]
  simp only [runLoop, nextStep, greedyRead_evalF]
  decide

/-- C2 counterexample: in the three-data-row scenario (rows 1 and 3 of
the correct width, row 2 with one extra column) the Result contains no
error of the extra/missing-columns kind (code 202) at all; the lone
line-level error at data row 2 (stream line 3) has kind ErrBareQuote
(code 203) and its context carries only the reader's column, because
the greedy reader wraps every parse failure, including "too many
columns", in ErrBareQuote before the validator's width check can run. -/
theorem row_width_error_kind_counterexample :
    ∃ log, runTable twoIntFields rowWidthLines = .ok log ∧
      lineErrorsOf log ErrExtraColumns = [] ∧
      (lineErrorsOf log ErrBareQuote).map (fun e => (e.err.code, e.line, e.context)) =
        [(203, 3, [("column", CtxV.int 4)])] :=
  ⟨_, rowWidth_run, by decide, by decide⟩

/-- C2 amended: a data row that scans with too many columns produces
exactly one line-level error, of kind ErrBareQuote (code 203) with the
reader's column as context (not an extra/missing-columns error with
expected/actual counts), and its per-field checks are skipped; rows 1
and 3 are fully field-validated.  A row with too few fields raises no
line-level error at all: the fixed-width shared record keeps the prior
values in the unwritten positions, so the width check in validateRow
(which fires only when the record length differs from the schema width)
never triggers in the greedy pipeline. -/
theorem row_width_mismatch_amended :
    runTable twoIntFields rowWidthLines =
      .ok [{ err := ErrBareQuote, line := 3, field := [], value := bytes "\"1\",\"2\",\"3\"",
             context := [("column", .int 4)] },
           { err := ErrTypeMismatchInt, line := 4, field := bytes "a", value := bytes "x",
             context := [] }] ∧
    greedyRead 7 [bytes "9", bytes "8"] (bytes "\"1\"") = ([bytes "1", bytes "8"], none) ∧
    (∀ t n row, row.length ≠ t.length →
      validateRow t n row =
        [{ err := ErrExtraColumns, line := n, field := [], value := [],
           context := [("expected", .int t.length), ("actual", .int row.length)] }]) := by
  refine ⟨rowWidth_run, ?_, ?_⟩
  · rw [greedyRead_evalF]
    decide
  · intro t n row hlen
    rw [validateRow, if_pos hlen]

theorem row_width_mismatch_amended_witness :
    validateRow ⟨2, [], []⟩ 5 [[]] =
      [{ err := ErrExtraColumns, line := 5, field := [], value := [],
         context := [("expected", .int 2), ("actual", .int 1)] }] :=
  row_width_mismatch_amended.2.2 ⟨2, [], []⟩ 5 [[]] (by decide)

/-- A window without a newline byte makes the comment branch search
fail. -/
theorem findNl_none (l : Bytes) (h : 10 ∉ l) : findNl l = none := by
  induction l with
  | nil => rfl
  | cons c rest ih =>
    simp only [List.mem_cons, not_or] at h
    rw [findNl, if_neg (by simp only [NL]; exact fun hc => h.1 hc.symm), ih h.2]
    rfl

/-- C9: after a successfully parsed data row, a blank line or a line
starting with the comment marker '#' makes the next greedy Read return
no error and the untouched shared record — the previous row's field
values — so Next then validates those same values again under the new
line number. -/
theorem blank_or_comment_line_revalidates_record (n : Nat) (rec : List Bytes) (line : Bytes)
    (hbc : line = [] ∨ line.head? = some 35) (hnl : 10 ∉ line) :
    greedyRead n rec line = (rec, none) ∧
    ∀ t st, st.record = rec → nextStep t st line =
      ⟨st.line + 1, rec, st.log ++ validateRow t (st.line + 1) rec⟩ := by
  have hread : ∀ m : Nat, greedyRead m rec line = (rec, none) := by
    intro m
    rcases hbc with hbl | hcm
    · subst hbl
      have hg : scanGo { initCSV SEP with comment := HASH } [] false =
          .done ⟨44, 35, true, 1, 0⟩ [] :=
        Option.some.inj ((scanGoF_eq 2 _ _ _ (by simp)).symm.trans (by decide))
      rw [greedyRead, parseCSVLine, parseLoop, hg]
    · rcases line with _ | ⟨b, cs⟩
      · simp at hcm
      · simp only [List.head?_cons, Option.some.injEq] at hcm
        subst hcm
        have hfind : findNl (35 :: cs) = none := findNl_none _ hnl
        have hsf1 : scanField { initCSV SEP with comment := HASH } (35 :: cs) false =
            ⟨0, none, none, ⟨44, 35, true, 1, 1⟩⟩ := by
          rw [scanField]
          simp [initCSV, SEP, HASH, bumpColumn, commentScan, hfind]
        have hw1 : scanFieldLoop { initCSV SEP with comment := HASH } (35 :: cs) false 0 =
            ⟨0, none, none, ⟨44, 35, true, 1, 1⟩⟩ := by
          rw [scanFieldLoop, hsf1]
          simp
        have hsf2 : scanField ⟨44, 35, true, 1, 1⟩ (35 :: cs) true =
            ⟨(35 :: cs).length, none, none, ⟨44, 35, true, 1, 1⟩⟩ := by
          rw [scanField]
          simp [bumpColumn, commentScan, hfind]
        have hw2 : scanFieldLoop ⟨44, 35, true, 1, 1⟩ (35 :: cs) true 0 =
            ⟨(35 :: cs).length, none, none, ⟨44, 35, true, 1, 1⟩⟩ := by
          rw [scanFieldLoop, hsf2]
          rw [if_neg (by simp)]
          rw [List.drop_length]
          rw [scanFieldLoop]
          rw [show scanField ⟨44, 35, true, 1, 1⟩ [] true =
            ⟨0, none, none, ⟨44, 35, true, 1, 1⟩⟩ from by decide]
          simp
        have hg1 : scanGo { initCSV SEP with comment := HASH } (35 :: cs) false =
            scanGo ⟨44, 35, true, 1, 1⟩ (35 :: cs) true := by
          rw [scanGo, if_neg (by simp), hw1]
          simp
        have hg2 : scanGo ⟨44, 35, true, 1, 1⟩ (35 :: cs) true =
            .done ⟨44, 35, true, 1, 1⟩ [] := by
          rw [scanGo, if_neg (by simp), hw2]
          simp [List.drop_length]
        rw [greedyRead, parseCSVLine, parseLoop, hg1.trans hg2]
  refine ⟨hread n, ?_⟩
  intro t st hrec
  rw [nextStep, hrec, hread (st.line + 1)]

/-- Witness for the C9 theorem at the concrete comment line "#n"
following a record ["a"]. -/
theorem blank_or_comment_line_revalidates_record_witness :
    ([35, 110] : Bytes).head? = some 35 ∧ (10 : Nat) ∉ ([35, 110] : Bytes) ∧
    greedyRead 5 [[97]] [35, 110] = ([[97]], none) :=
  ⟨by decide, by decide,
    (blank_or_comment_line_revalidates_record 5 [[97]] [35, 110]
      (Or.inr (by decide)) (by decide)).1⟩

/-- The header-matching fold, from any start index and accumulator:
the matched names are exactly the scanned names that resolve in the
schema, and the unknown names exactly those that do not, each in header
order. -/
theorem headerScan_go (tfs : List Field) (l : List Bytes) :
    ∀ (i : Nat) (acc : List Bytes × List (Nat × Field) × List Bytes),
      (((l.enumFrom i).foldl
        (fun acc p =>
          match fieldsGet tfs p.2 with
          | some f => (acc.1 ++ [p.2], acc.2.1 ++ [(p.1, f)], acc.2.2)
          | none => (acc.1, acc.2.1, acc.2.2 ++ [p.2])) acc).1
        = acc.1 ++ l.filter (fun n => (fieldsGet tfs n).isSome)) ∧
      (((l.enumFrom i).foldl
        (fun acc p =>
          match fieldsGet tfs p.2 with
          | some f => (acc.1 ++ [p.2], acc.2.1 ++ [(p.1, f)], acc.2.2)
          | none => (acc.1, acc.2.1, acc.2.2 ++ [p.2])) acc).2.2
        = acc.2.2 ++ l.filter (fun n => (fieldsGet tfs n).isNone)) := by
  induction l with
  | nil => intro i acc; simp [List.enumFrom]
  | cons x xs ih =>
    intro i acc
    rw [List.enumFrom, List.foldl_cons]
    cases hf : fieldsGet tfs x with
    | some f =>
      have h := ih (i + 1) (acc.1 ++ [x], acc.2.1 ++ [(i, f)], acc.2.2)
      simp only [hf] at h ⊢
      simp [h.1, h.2, List.filter_cons, hf]
    | none =>
      have h := ih (i + 1) (acc.1, acc.2.1, acc.2.2 ++ [x])
      simp only [hf] at h ⊢
      simp [h.1, h.2, List.filter_cons, hf]

/-- The unknown names Init computes are exactly the lowered header names
with no schema match, in header order. -/
theorem unknownOf_eq (tfs : List Field) (head : List Bytes) :
    unknownOf tfs head =
      (head.map toLowerGo).filter (fun n => (fieldsGet tfs n).isNone) := by
  have h := headerScan_go tfs (head.map toLowerGo) 0 ([], [], [])
  simpa [unknownOf, headerScan, List.enum] using h.2

/-- The matched names Init computes are exactly the lowered header names
that resolve in the schema. -/
theorem headerScan_fst_eq (tfs : List Field) (head : List Bytes) :
    (headerScan tfs (head.map toLowerGo)).1 =
      (head.map toLowerGo).filter (fun n => (fieldsGet tfs n).isSome) := by
  have h := headerScan_go tfs (head.map toLowerGo) 0 ([], [], [])
  simpa [headerScan, List.enum] using h.1

/-- A schema field's own name always resolves in the schema. -/
theorem fieldsGet_self (tfs : List Field) (f : Field) (hf : f ∈ tfs) :
    (fieldsGet tfs f.name).isSome := by
  rw [fieldsGet, List.find?_isSome]
  exact ⟨f, hf, by simp⟩

/-- The missing names Init computes are exactly the names of schema
fields that do not occur among the lowered header names, in schema
order. -/
theorem missingHdr_eq (tfs : List Field) (head : List Bytes) :
    missingHdr tfs head =
      (tfs.filter
        (fun f => ¬ (head.map toLowerGo).contains f.name)).map (·.name) := by
  rw [missingHdr, missingOf, headerScan_fst_eq]
  congr 1
  apply List.filter_congr
  intro f hf
  simp only [decide_eq_decide, List.contains, List.elem_iff, List.mem_filter]
  constructor
  · intro h hmem; exact h ⟨hmem, fieldsGet_self tfs f hf⟩
  · intro h hboth; exact h hboth.1

/-- C4: whenever the header's length differs from the schema width, or
some header name has no schema match, or some schema field is absent
from the header, Init fails with exactly one BadHeader error carrying
the expected and actual lengths and exactly those unknown and missing
name sets; and a run whose header read produced that header returns
Init's error without streaming any row. -/
theorem bad_header_is_single_and_exact (tfs : List Field) (head : List Bytes)
    (h : head.length ≠ tfs.length ∨ unknownOf tfs head ≠ [] ∨ missingHdr tfs head ≠ []) :
    initHeader tfs.length tfs head = .error
      { err := ErrBadHeader, line := 0, field := [], value := [],
        context := [("expectedLength", .int tfs.length),
                    ("actualLength", .int head.length),
                    ("unknownFields", .strs ((head.map toLowerGo).filter
                       (fun n => (fieldsGet tfs n).isNone))),
                    ("missingFields", .strs ((tfs.filter
                       (fun f => ¬ (head.map toLowerGo).contains f.name)).map (·.name)))] } ∧
    ∀ line rest, greedyRead 1 (List.replicate tfs.length []) line = (head, none) →
      runTable tfs (line :: rest) = .error (.verr
        { err := ErrBadHeader, line := 0, field := [], value := [],
          context := [("expectedLength", .int tfs.length),
                      ("actualLength", .int head.length),
                      ("unknownFields", .strs ((head.map toLowerGo).filter
                         (fun n => (fieldsGet tfs n).isNone))),
                      ("missingFields", .strs ((tfs.filter
                         (fun f => ¬ (head.map toLowerGo).contains f.name)).map (·.name)))] }) := by
  have hinit : initHeader tfs.length tfs head = .error
      { err := ErrBadHeader, line := 0, field := [], value := [],
        context := [("expectedLength", .int tfs.length),
                    ("actualLength", .int head.length),
                    ("unknownFields", .strs ((head.map toLowerGo).filter
                       (fun n => (fieldsGet tfs n).isNone))),
                    ("missingFields", .strs ((tfs.filter
                       (fun f => ¬ (head.map toLowerGo).contains f.name)).map (·.name)))] } := by
    rw [initHeader, if_pos h, unknownOf_eq, missingHdr_eq]
  refine ⟨hinit, ?_⟩
  intro line rest hg
  rw [runTable, initV, hg]
  dsimp only
  rw [hinit]

/-- Witness for the C4 theorem: schema (a, b), header (a, c) — one
unknown name c and one missing name b. -/
theorem bad_header_is_single_and_exact_witness :
    (unknownOf ([⟨[97], "integer", false, 0⟩, ⟨[98], "integer", false, 0⟩] : List Field)
        [[97], [99]] ≠ []) ∧
    initHeader ([⟨[97], "integer", false, 0⟩, ⟨[98], "integer", false, 0⟩] : List Field).length
      ([⟨[97], "integer", false, 0⟩, ⟨[98], "integer", false, 0⟩] : List Field) [[97], [99]] = .error
      { err := ErrBadHeader, line := 0, field := [], value := [],
        context := [("expectedLength", .int 2), ("actualLength", .int 2),
                    ("unknownFields", .strs [[99]]),
                    ("missingFields", .strs [[98]])] } :=
  ⟨by decide,
    by
      have h := (bad_header_is_single_and_exact
        ([⟨[97], "integer", false, 0⟩, ⟨[98], "integer", false, 0⟩] : List Field) [[97], [99]]
        (Or.inr (Or.inl (by decide)))).1
      rw [h]
      rfl⟩

/-- Every error the greedy reader reports carries the line number it was
read at. -/
theorem greedyRead_err_line (n : Nat) (rec : List Bytes) (l : Bytes)
    (rec2 : List Bytes) (e : VError) (h : greedyRead n rec l = (rec2, some e)) :
    e.line = n := by
  rcases hp : parseCSVLine l rec with ⟨col, oe, rec'⟩
  rw [greedyRead, hp] at h
  cases oe with
  | none => simp at h
  | some x =>
    simp only [Prod.mk.injEq, Option.some.injEq] at h
    rw [← h.2]

/-- Every error validateRow produces carries the line number it was
validated at. -/
theorem validateRow_err_line (t : TableCtx) (n : Nat) (row : List Bytes) :
    ∀ e ∈ validateRow t n row, e.line = n := by
  intro e he
  rw [validateRow] at he
  split at he
  · simp only [List.mem_singleton] at he
    rw [he]
  · simp only [List.mem_flatMap] at he
    obtain ⟨p, _, hp⟩ := he
    rcases hfa : fieldAtPos t.fieldAt p.1 with _ | f
    · rw [hfa] at hp; simp at hp
    · rw [hfa] at hp
      dsimp only at hp
      rcases hrr : runRules (planFind t.plan f.name) p.2 with _ | er
      · rw [hrr] at hp; simp at hp
      · rw [hrr] at hp
        simp only [List.mem_singleton] at hp
        rw [hp]

/-- One Next step bumps the line counter and appends only errors at the
new line number. -/
theorem nextStep_shape (t : TableCtx) (st : RunSt) (l : Bytes) :
    (nextStep t st l).line = st.line + 1 ∧
    ∃ new, (nextStep t st l).log = st.log ++ new ∧
      ∀ e ∈ new, e.line = st.line + 1 := by
  rw [nextStep]
  rcases hg : greedyRead (st.line + 1) st.record l with ⟨rec2, oe⟩
  cases oe with
  | some e =>
    exact ⟨rfl, [e], rfl, by
      intro x hx
      simp only [List.mem_singleton] at hx
      rw [hx]
      exact greedyRead_err_line _ _ _ _ _ hg⟩
  | none =>
    exact ⟨rfl, validateRow t (st.line + 1) rec2, rfl,
      validateRow_err_line t (st.line + 1) rec2⟩

/-- A list of errors all at one line is sorted by line. -/
theorem chain_of_const_line (c : Nat) :
    ∀ l : List VError, (∀ e ∈ l, e.line = c) →
      List.Chain' (fun a b => a.line ≤ b.line) l := by
  intro l
  induction l with
  | nil => intro _; exact List.chain'_nil
  | cons x xs ih =>
    intro h
    cases xs with
    | nil => exact List.chain'_singleton x
    | cons y ys =>
      refine List.Chain'.cons ?_ (ih (fun e he => h e (List.mem_cons_of_mem x he)))
      rw [h x (List.mem_cons_self _ _), h y (List.mem_cons_of_mem x (List.mem_cons_self _ _))]

/-- Run's loop preserves the log's line-sortedness and the bound that
every logged line number is at most the current line counter. -/
theorem runLoop_mono (t : TableCtx) :
    ∀ (ls : List Bytes) (st : RunSt),
      List.Chain' (fun a b => a.line ≤ b.line) st.log →
      (∀ e ∈ st.log, e.line ≤ st.line) →
      List.Chain' (fun a b => a.line ≤ b.line) (runLoop t st ls).log ∧
      ∀ e ∈ (runLoop t st ls).log, e.line ≤ (runLoop t st ls).line := by
  intro ls
  induction ls with
  | nil => intro st h1 h2; exact ⟨h1, h2⟩
  | cons l rest ih =>
    intro st h1 h2
    rw [runLoop]
    obtain ⟨hline, new, hlog, hnew⟩ := nextStep_shape t st l
    refine ih (nextStep t st l) ?_ ?_
    · rw [hlog]
      rw [List.chain'_append]
      refine ⟨h1, chain_of_const_line _ new hnew, ?_⟩
      intro x hx y hy
      have hxl : x ∈ st.log := List.mem_of_mem_getLast? hx
      have hyl : y ∈ new := List.mem_of_mem_head? hy
      rw [hnew y hyl]
      exact Nat.le_succ_of_le (h2 x hxl)
    · intro e he
      rw [hline]
      rw [hlog] at he
      rcases List.mem_append.mp he with h | h
      · exact Nat.le_succ_of_le (h2 e h)
      · rw [hnew e h]

/-- C10: validation is deterministic — byte-identical inputs give
identical results — and the error log of any successful run is appended
in stream order, its line numbers monotonically non-decreasing. -/
theorem run_deterministic_and_monotone (tfs : List Field) (lines₁ lines₂ : List Bytes)
    (hb : lines₁ = lines₂) :
    runTable tfs lines₁ = runTable tfs lines₂ ∧
    ∀ log, runTable tfs lines₁ = .ok log →
      List.Chain' (fun a b => a.line ≤ b.line) log := by
  subst hb
  refine ⟨rfl, ?_⟩
  intro log hlog
  rw [runTable] at hlog
  rcases hi : initV tfs lines₁ with e | ⟨ctx, rec1, rest⟩
  · rw [hi] at hlog; cases hlog
  · rw [hi] at hlog
    simp only [Except.ok.injEq] at hlog
    rw [← hlog]
    exact (runLoop_mono ctx rest ⟨1, rec1, []⟩ List.chain'_nil (by intro e he; cases he)).1

/-- Witness for the C10 theorem on the row-width scenario: the run is
equal to itself and its two-error log is line-sorted. -/
theorem run_deterministic_and_monotone_witness :
    runTable twoIntFields rowWidthLines = runTable twoIntFields rowWidthLines ∧
    List.Chain' (fun a b => a.line ≤ b.line)
      ([{ err := ErrBareQuote, line := 3, field := [], value := bytes "\"1\",\"2\",\"3\"",
          context := [("column", .int 4)] },
        { err := ErrTypeMismatchInt, line := 4, field := bytes "a", value := bytes "x",
          context := [] }] : List VError) :=
  ⟨(run_deterministic_and_monotone twoIntFields rowWidthLines rowWidthLines rfl).1,
   (run_deterministic_and_monotone twoIntFields rowWidthLines rowWidthLines rfl).2 _
     rowWidth_run⟩

/-- Number of quote bytes in a value (the count of doubled pairs its
rendering contains). -/
def countQ : Bytes → Nat
  | [] => 0
  | c :: rest => (if c = QU then 1 else 0) + countQ rest

/-- Modelled from the spec: the escaping direction of the doubled-quote
law — each literal quote becomes two. -/
def escQuotes : Bytes → Bytes
  | [] => []
  | c :: rest => if c = QU then QU :: QU :: escQuotes rest else c :: escQuotes rest

/-- Modelled from the spec: a rendered quoted field — the escaped value
wrapped in quotes. -/
def renderField (v : Bytes) : Bytes := QU :: (escQuotes v ++ [QU])

/-- Modelled from the spec: a rendered quoted row — rendered fields
joined by the comma separator. -/
def renderRow : List Bytes → Bytes
  | [] => []
  | [v] => renderField v
  | v :: rest => renderField v ++ SEP :: renderRow rest

/-- The successive writes parseCSVLine performs into the record. -/
def writeAll : List Bytes → Nat → List Bytes → List Bytes
  | t, _, [] => t
  | t, i, v :: rest => writeAll (t.set i v) (i + 1) rest

/-- Escaping a quote-free value is the identity. -/
theorem escQuotes_of_countQ_zero (v : Bytes) (h : countQ v = 0) : escQuotes v = v := by
  induction v with
  | nil => rfl
  | cons c rest ih =>
    rw [countQ] at h
    rw [escQuotes, if_neg (by intro hc; rw [if_pos hc] at h; omega)]
    rw [ih (by omega)]

/-- The escaped form is longer by exactly the quote count. -/
theorem escQuotes_length (v : Bytes) : (escQuotes v).length = v.length + countQ v := by
  induction v with
  | nil => rfl
  | cons c rest ih =>
    rw [escQuotes, countQ]
    by_cases hc : c = QU
    · rw [if_pos hc, if_pos hc]
      simp [ih]
      omega
    · rw [if_neg hc, if_neg hc]
      simp [ih]
      omega

/-- Escaping never yields the empty sequence from a nonempty value. -/
theorem escQuotes_ne_nil (c : Nat) (rest : Bytes) : escQuotes (c :: rest) ≠ [] := by
  rw [escQuotes]
  split <;> simp

/-- The strict in-place rewrite undoes the escaping byte-for-byte. -/
theorem unescapeWrites_esc (v : Bytes) : unescapeWrites true (escQuotes v) = v := by
  induction v with
  | nil => rfl
  | cons c rest ih =>
    by_cases hc : c = QU
    · subst hc
      rw [escQuotes, if_pos rfl]
      cases he : escQuotes rest with
      | nil =>
        rw [unescapeWrites, if_pos (by simp)]
        rw [he] at ih
        rw [ih]
      | cons x xs =>
        rw [unescapeWrites, if_pos (by simp)]
        rw [he] at ih
        rw [ih]
    · rw [escQuotes, if_neg hc]
      cases rest with
      | nil => rw [escQuotes]; rfl
      | cons d ds =>
        cases he : escQuotes (d :: ds) with
        | nil => exact absurd he (escQuotes_ne_nil d ds)
        | cons x xs =>
          rw [he] at ih
          rw [unescapeWrites, if_neg (by simp [hc])]
          rw [ih]

/-- Unescaping a rendered field content recovers the value. -/
theorem unescapeQuotes_esc (v : Bytes) :
    unescapeQuotes (escQuotes v) (countQ v) true = v := by
  rw [unescapeQuotes]
  by_cases h0 : countQ v = 0
  · rw [if_pos h0, escQuotes_of_countQ_zero v h0]
  · rw [if_neg h0]
    rw [unescapeWrites_esc]
    rw [escQuotes_length]
    simp

/-- One shift step of the quoted-field loop: a byte that is not a
newline, examined with a non-quote previous byte, only shifts the
character window. -/
theorem qloop_step_shift (sep col c : Nat) (rest : Bytes) (i pc ppc q ln c0 : Nat)
    (hpc : pc ≠ QU) (hcnl : c ≠ NL) :
    qloop sep col (c :: rest) i pc ppc q ln c0 =
      qloop sep col rest (i + 1) c pc q ln c := by
  rw [qloop]
  simp only [if_neg hcnl]
  rw [if_neg (fun h : c = QU ∧ pc = QU => hpc h.2),
      if_neg (fun h : pc = QU ∧ c = sep => hpc h.1),
      if_neg (fun h : pc = QU ∧ c = NL => hpc h.1),
      if_neg (fun h : c = NL ∧ pc = CR ∧ ppc = QU => hcnl h.1),
      if_neg (fun h : pc = QU ∧ c ≠ CR => hpc h.1)]

/-- One escaped-pair step: a quote examined right after a quote is
counted and resets the previous byte. -/
theorem qloop_step_pair (sep col : Nat) (rest : Bytes) (i ppc q ln c0 : Nat) :
    qloop sep col (QU :: rest) i QU ppc q ln c0 =
      qloop sep col rest (i + 1) 0 ppc (q + 1) ln QU := by
  rw [qloop]
  simp only [if_neg (show ¬ (QU : Nat) = NL by simp [QU, NL])]
  rw [if_pos (⟨trivial, trivial⟩ : True ∧ True)]

/-- The terminating step: a separator right after a closing quote ends
the field. -/
theorem qloop_step_sep (sep col : Nat) (tail : Bytes) (i ppc q ln c0 : Nat)
    (hsnl : sep ≠ NL) (hsq : sep ≠ QU) :
    qloop sep col (sep :: tail) i QU ppc q ln c0 = .sepEnd i q ln := by
  rw [qloop]
  simp only [if_neg hsnl]
  rw [if_neg (fun h : sep = QU ∧ True => hsq h.1),
      if_pos (⟨trivial, trivial⟩ : True ∧ True)]

/-- The quoted-field loop walks an escaped newline-free value without
terminating: each plain byte shifts, each doubled quote is counted, and
the loop arrives at the tail with the quote count raised by the value's
quote count and with a previous-character that is not a quote. -/
theorem qloop_esc (sep col : Nat) (v : Bytes) (hnl : NL ∉ v) :
    ∀ (tail : Bytes) (i pc ppc q ln c0 : Nat), pc ≠ QU →
      ∃ pc' ppc' c0', pc' ≠ QU ∧
        qloop sep col (escQuotes v ++ tail) i pc ppc q ln c0 =
          qloop sep col tail (i + (escQuotes v).length) pc' ppc' (q + countQ v) ln c0' := by
  induction v with
  | nil =>
    intro tail i pc ppc q ln c0 hpc
    exact ⟨pc, ppc, c0, hpc, by simp [escQuotes, countQ]⟩
  | cons c rest ih =>
    intro tail i pc ppc q ln c0 hpc
    have hcnl : c ≠ NL := fun h => hnl (h ▸ List.mem_cons_self c rest)
    have hrnl : NL ∉ rest := fun h => hnl (List.mem_cons_of_mem c h)
    by_cases hc : c = QU
    · subst hc
      obtain ⟨pc', ppc', c0', hpc', heq⟩ := ih hrnl tail (i + 1 + 1) 0 pc (q + 1) ln QU
        (by simp [QU])
      refine ⟨pc', ppc', c0', hpc', ?_⟩
      rw [show escQuotes (QU :: rest) = QU :: QU :: escQuotes rest from by
        rw [escQuotes, if_pos rfl]]
      rw [List.cons_append, List.cons_append]
      rw [qloop_step_shift sep col QU _ i pc ppc q ln c0 hpc hcnl]
      rw [qloop_step_pair]
      rw [heq]
      congr 1 <;> simp [countQ] <;> omega
    · obtain ⟨pc', ppc', c0', hpc', heq⟩ := ih hrnl tail (i + 1) c pc q ln c hc
      refine ⟨pc', ppc', c0', hpc', ?_⟩
      rw [show escQuotes (c :: rest) = c :: escQuotes rest from by
        rw [escQuotes, if_neg hc]]
      rw [List.cons_append]
      rw [qloop_step_shift sep col c _ i pc ppc q ln c0 hpc hcnl]
      rw [heq]
      congr 1 <;> simp [countQ, hc] <;> omega

/-- The quoted branch on a rendered, separator-terminated field: it
consumes the field and the separator, unescapes the content back to the
value, and clears the end-of-record flag. -/
theorem quotedScan_sep (s : CSVState) (v rest' : Bytes) (hsep : s.sep = 44)
    (hnl : NL ∉ v) (atEOF : Bool) :
    quotedScan s (QU :: (escQuotes v ++ QU :: 44 :: rest')) atEOF =
      ⟨(escQuotes v).length + 3, some v, none, { s with eor := false }⟩ := by
  obtain ⟨pc', ppc', c0', hpc', heq⟩ :=
    qloop_esc 44 s.column v hnl (QU :: 44 :: rest') 1 0 0 0 s.lineno 0 (by simp [QU])
  rw [quotedScan, hsep]
  rw [show (QU :: (escQuotes v ++ QU :: 44 :: rest')).drop 1 =
      escQuotes v ++ QU :: 44 :: rest' from rfl]
  rw [heq]
  rw [qloop_step_shift 44 s.column QU (44 :: rest') (1 + (escQuotes v).length) pc' ppc'
      (0 + countQ v) s.lineno c0' hpc' (by simp [QU, NL])]
  rw [qloop_step_sep 44 s.column rest' (1 + (escQuotes v).length + 1) pc'
      (0 + countQ v) s.lineno QU (by simp [NL]) (by simp [QU])]
  dsimp only
  have htok : unescapeQuotes (((QU :: (escQuotes v ++ QU :: 44 :: rest')).take
      (1 + (escQuotes v).length + 1 - 1)).drop 1) (0 + countQ v) true = v := by
    have ht : 1 + (escQuotes v).length + 1 - 1 = (escQuotes v).length + 1 := by omega
    rw [ht, List.take_succ_cons, List.take_left' rfl]
    rw [show (QU :: escQuotes v).drop 1 = escQuotes v from rfl]
    rw [Nat.zero_add, unescapeQuotes_esc]
  rw [htok]
  have hadv : 1 + (escQuotes v).length + 1 + 1 = (escQuotes v).length + 3 := by omega
  rw [hadv]

/-- The quoted branch on a rendered final field: before end of input it
makes no progress; at end of input it consumes the whole window and
unescapes the content back to the value, setting end of record. -/
theorem quotedScan_eof (s : CSVState) (v : Bytes) (hsep : s.sep = 44) (hnl : NL ∉ v) :
    quotedScan s (QU :: (escQuotes v ++ [QU])) false = ⟨0, none, none, s⟩ ∧
    quotedScan s (QU :: (escQuotes v ++ [QU])) true =
      ⟨(escQuotes v).length + 2, some v, none, { s with eor := true }⟩ := by
  obtain ⟨ssep, scm, seor, sln, scol⟩ := s
  simp only at hsep
  subst hsep
  obtain ⟨pc', ppc', c0', hpc', heq⟩ :=
    qloop_esc 44 scol v hnl [QU] 1 0 0 0 sln 0 (by simp [QU])
  have hq2 : qloop 44 scol [QU] (1 + (escQuotes v).length) pc' ppc'
      (0 + countQ v) sln c0' = .outOfData QU (0 + countQ v) sln := by
    rw [qloop_step_shift 44 scol QU [] (1 + (escQuotes v).length) pc' ppc'
        (0 + countQ v) sln c0' hpc' (by simp [QU, NL])]
    rw [qloop]
  constructor
  · rw [quotedScan]
    simp only
    rw [show (QU :: (escQuotes v ++ [QU])).drop 1 = escQuotes v ++ [QU] from rfl]
    rw [heq, hq2]
    rfl
  · rw [quotedScan]
    simp only
    rw [show (QU :: (escQuotes v ++ [QU])).drop 1 = escQuotes v ++ [QU] from rfl]
    rw [heq, hq2]
    dsimp only
    rw [if_pos (rfl : QU = QU)]
    have hlen : (QU :: (escQuotes v ++ [QU])).length = (escQuotes v).length + 2 := by
      simp
    rw [hlen]
    have htok : unescapeQuotes (((QU :: (escQuotes v ++ [QU])).take
        ((escQuotes v).length + 2 - 1)).drop 1) (0 + countQ v) true = v := by
      have ht : (escQuotes v).length + 2 - 1 = (escQuotes v).length + 1 := by omega
      rw [ht, List.take_succ_cons, List.take_left' rfl]
      rw [show (QU :: escQuotes v).drop 1 = escQuotes v from rfl]
      rw [Nat.zero_add, unescapeQuotes_esc]
    rw [htok]
    rfl

/-- scanField on a rendered, separator-terminated field. -/
theorem scanField_rf_sep (s : CSVState) (v rest' : Bytes) (hsep : s.sep = 44)
    (hcm : s.comment = 35) (hnl : NL ∉ v) (atEOF : Bool) :
    scanField s (QU :: (escQuotes v ++ QU :: 44 :: rest')) atEOF =
      ⟨(escQuotes v).length + 3, some v, none, { bumpColumn s with eor := false }⟩ := by
  rw [scanField]
  rw [if_neg (by simp)]
  try dsimp only
  rw [if_neg (by rw [hcm]; simp [QU])]
  rw [if_pos (rfl : QU = QU)]
  exact quotedScan_sep (bumpColumn s) v rest' hsep hnl atEOF

/-- scanField on a rendered final field, before end of input. -/
theorem scanField_rf_eofFalse (s : CSVState) (v : Bytes) (hsep : s.sep = 44)
    (hcm : s.comment = 35) (hnl : NL ∉ v) :
    scanField s (QU :: (escQuotes v ++ [QU])) false = ⟨0, none, none, bumpColumn s⟩ := by
  rw [scanField]
  rw [if_neg (by simp)]
  try dsimp only
  rw [if_neg (by rw [hcm]; simp [QU])]
  rw [if_pos (rfl : QU = QU)]
  exact (quotedScan_eof (bumpColumn s) v hsep hnl).1

/-- scanField on a rendered final field, at end of input. -/
theorem scanField_rf_eofTrue (s : CSVState) (v : Bytes) (hsep : s.sep = 44)
    (hcm : s.comment = 35) (hnl : NL ∉ v) :
    scanField s (QU :: (escQuotes v ++ [QU])) true =
      ⟨(escQuotes v).length + 2, some v, none, { bumpColumn s with eor := true }⟩ := by
  rw [scanField]
  rw [if_neg (by simp)]
  try dsimp only
  rw [if_neg (by rw [hcm]; simp [QU])]
  rw [if_pos (rfl : QU = QU)]
  exact (quotedScan_eof (bumpColumn s) v hsep hnl).2

/-- Scan on a rendered, separator-terminated field: one token, the
remaining window starting after the separator. -/
theorem scanGo_rf_sep (s : CSVState) (v rest' : Bytes) (hsep : s.sep = 44)
    (hcm : s.comment = 35) (hnl : NL ∉ v) (eof : Bool) :
    scanGo s (QU :: (escQuotes v ++ QU :: 44 :: rest')) eof =
      .tok v { bumpColumn s with eor := false } rest' eof := by
  have hl : scanFieldLoop s (QU :: (escQuotes v ++ QU :: 44 :: rest')) eof 0 =
      ⟨(escQuotes v).length + 3, some v, none, { bumpColumn s with eor := false }⟩ := by
    rw [scanFieldLoop, scanField_rf_sep s v rest' hsep hcm hnl eof]
    rw [if_pos (by simp)]
    simp
  rw [scanGo, if_neg (by simp), hl]
  dsimp only
  rw [show (QU :: (escQuotes v ++ QU :: 44 :: rest')).drop ((escQuotes v).length + 3) =
      rest' from by
    rw [show QU :: (escQuotes v ++ QU :: 44 :: rest') =
        (QU :: (escQuotes v ++ [QU, 44])) ++ rest' from by simp]
    rw [List.drop_left' (by simp only [List.length_cons, List.length_append, List.length_nil])]]

/-- Scan on a rendered final field: no progress on the first pass, then
the token at end of input with an emptied window. -/
theorem scanGo_rf_last (s : CSVState) (v : Bytes) (hsep : s.sep = 44)
    (hcm : s.comment = 35) (hnl : NL ∉ v) :
    scanGo s (QU :: (escQuotes v ++ [QU])) false =
      .tok v { bumpColumn (bumpColumn s) with eor := true } [] true := by
  have h1 : scanFieldLoop s (QU :: (escQuotes v ++ [QU])) false 0 =
      ⟨0, none, none, bumpColumn s⟩ := by
    rw [scanFieldLoop, scanField_rf_eofFalse s v hsep hcm hnl]
    rw [if_pos (by simp)]
    simp
  have h2 : scanFieldLoop (bumpColumn s) (QU :: (escQuotes v ++ [QU])) true 0 =
      ⟨(escQuotes v).length + 2, some v, none,
        { bumpColumn (bumpColumn s) with eor := true }⟩ := by
    rw [scanFieldLoop, scanField_rf_eofTrue (bumpColumn s) v hsep hcm hnl]
    rw [if_pos (by simp)]
    simp
  rw [scanGo, if_neg (by simp), h1]
  dsimp only
  rw [List.drop_zero]
  rw [scanGo, if_neg (by simp), h2]
  dsimp only
  rw [show (QU :: (escQuotes v ++ [QU])).drop ((escQuotes v).length + 2) = [] from by
    rw [show (escQuotes v).length + 2 = (QU :: (escQuotes v ++ [QU])).length from by
      simp only [List.length_cons, List.length_append, List.length_nil]]
    exact List.drop_length _]
  rw [if_neg (by simp)]

/-- parseCSVLine's in-bounds write sequence overwrites a record segment
with the scanned values. -/
theorem writeAll_eq : ∀ (vs : List Bytes) (t : List Bytes) (i : Nat),
    i + vs.length ≤ t.length →
    writeAll t i vs = t.take i ++ vs ++ t.drop (i + vs.length) := by
  intro vs
  induction vs with
  | nil =>
    intro t i h
    simp [writeAll]
  | cons v rest ih =>
    intro t i h
    simp only [List.length_cons] at h
    have hlt : i < t.length := by omega
    have hA : (t.take i).length = i := by rw [List.length_take]; omega
    have htake : ((t.take i) ++ v :: t.drop (i + 1)).take (i + 1) = t.take i ++ [v] := by
      rw [List.take_append_eq_append_take, hA, List.take_take,
          min_eq_right (Nat.le_succ i),
          show i + 1 - i = 1 from by omega]
      simp
    have hdrop2 : ((t.take i) ++ v :: t.drop (i + 1)).drop (i + 1 + rest.length) =
        t.drop (i + 1 + rest.length) := by
      rw [List.drop_append_eq_append_drop, hA,
          List.drop_eq_nil_of_le (by rw [hA]; omega),
          show i + 1 + rest.length - i = rest.length + 1 from by omega,
          List.drop_succ_cons, List.drop_drop, List.nil_append]
    rw [writeAll, ih (t.set i v) (i + 1) (by rw [List.length_set]; omega),
        List.set_eq_take_cons_drop v hlt, htake, hdrop2,
        show i + 1 + rest.length = i + (v :: rest).length from by
          simp only [List.length_cons]; omega]
    simp

/-- The parse loop over a rendered row of newline-free values scans each
field back to its value and writes it into the record in order, with no
error. -/
theorem parseLoop_renderRow : ∀ (vs : List Bytes) (s : CSVState) (m : Nat)
    (t : List Bytes) (i : Nat), vs ≠ [] → (∀ v ∈ vs, NL ∉ v) →
    s.sep = 44 → s.comment = 35 → i + vs.length ≤ m →
    ∃ col, parseLoop m s (renderRow vs) false t i = (col, none, writeAll t i vs) := by
  intro vs
  induction vs with
  | nil => intro s m t i hne _ _ _ _; exact absurd rfl hne
  | cons v rest ih =>
    intro s m t i _ hnl hsep hcm hbound
    cases rest with
    | nil =>
      rw [show renderRow [v] = QU :: (escQuotes v ++ [QU]) from by
        rw [renderRow, renderField]]
      rw [parseLoop]
      rw [scanGo_rf_last s v hsep hcm (hnl v (List.mem_cons_self _ _))]
      dsimp only
      rw [if_neg (show ¬ i = m from by simp at hbound; omega)]
      rw [if_pos (rfl : ({ bumpColumn (bumpColumn s) with eor := true } : CSVState).eor = true)]
      exact ⟨_, rfl⟩
    | cons w rest' =>
      rw [show renderRow (v :: w :: rest') =
          QU :: (escQuotes v ++ QU :: 44 :: renderRow (w :: rest')) from by
        rw [renderRow, renderField, SEP] <;> simp]
      rw [parseLoop]
      rw [scanGo_rf_sep s v (renderRow (w :: rest')) hsep hcm
        (hnl v (List.mem_cons_self _ _)) false]
      dsimp only
      rw [if_neg (show ¬ i = m from by simp at hbound; omega)]
      rw [if_neg (show ¬ ({ bumpColumn s with eor := false } : CSVState).eor = true from by
        simp)]
      obtain ⟨col, hcol⟩ := ih { bumpColumn s with eor := false } m (t.set i v) (i + 1)
        (by simp) (fun u hu => hnl u (List.mem_cons_of_mem _ hu)) hsep hcm
        (by simp at hbound ⊢; omega)
      exact ⟨col, by rw [hcol]; rfl⟩

/-- C5: scanning a rendered quoted row recovers every field value
byte-for-byte — each doubled quote unescapes to one literal quote — and
in particular the field value three-quote b three-quote scans to the
three bytes quote, b, quote. -/
theorem quoted_roundtrip (vs : List Bytes) (hne : vs ≠ []) (hnl : ∀ v ∈ vs, NL ∉ v) :
    (parseCSVLine (renderRow vs) (List.replicate vs.length [])).2 = (none, vs) ∧
    parseCSVLine (bytes "\"\"\"b\"\"\"") [[]] = (1, none, bytes "\"b\"" :: []) := by
  constructor
  · obtain ⟨col, hcol⟩ := parseLoop_renderRow vs { initCSV SEP with comment := HASH }
      (List.replicate vs.length ([] : Bytes)).length (List.replicate vs.length []) 0
      hne hnl (by decide) (by decide) (by simp)
    rw [parseCSVLine, hcol]
    rw [writeAll_eq vs _ 0 (by simp)]
    simp
  · rw [parseCSVLine_evalF]
    decide

/-- Witness for the C5 theorem at the two-field row whose first value
contains escaped quotes and whose second value is a bare separator. -/
theorem quoted_roundtrip_witness :
    ([[34, 98, 34], [44]] : List Bytes) ≠ [] ∧
    (parseCSVLine (renderRow [[34, 98, 34], [44]])
      (List.replicate ([[34, 98, 34], [44]] : List Bytes).length [])).2 =
      (none, [[34, 98, 34], [44]]) :=
  ⟨by decide,
    (quoted_roundtrip [[34, 98, 34], [44]] (by decide) (by decide)).1⟩
